import Mathlib

/-! ## Verification of the reference-loader pipeline

A shallow embedding of the parse → sort → format → number → wrap pipeline of
`bibtex_loader.py`, together with proofs and refutations of the frozen claims
about its specification.

Python strings are modelled as Lean `String`s (lists of Unicode code points,
which matches Python's code-point view of `str`); Python `dict`s of string
fields are modelled as insertion-ordered association lists; Python exceptions
are modelled with `Except Unit`; reading a file (or decoding JSON) is modelled
by an `Except Unit` input, `.error` meaning the read/decode raised.  All
definitions are kernel-computable so that concrete counterexamples evaluate by
`decide`/`rfl`.

Python's `\w`, `\s`, `str.lower`, `str.strip` act on full Unicode; the model
uses their ASCII behaviour (identical on all ASCII input, which every theorem
and counterexample below stays inside).
-/

/-! ## Python string primitives -/

/-- The characters Python's `str.strip()`, `str.split()` and the regex class
`\s` treat as whitespace (ASCII part). -/
def pyIsSpace (c : Char) : Bool :=
  c = ' ' || c = '\t' || c = '\n' || c = '\r' || c = '\x0b' || c = '\x0c'

/-- `startsWithChars pat s`: does `s` begin with `pat`? -/
def startsWithChars : List Char → List Char → Bool
  | [], _ => true
  | _ :: _, [] => false
  | p :: ps, c :: cs => p = c && startsWithChars ps cs

/-- Auxiliary for `pyWords`: split a character list on runs of whitespace. -/
def wordsGo : List Char → List Char → List (List Char)
  | [], acc => if acc = [] then [] else [acc.reverse]
  | c :: rest, acc =>
    if pyIsSpace c then
      if acc = [] then wordsGo rest [] else acc.reverse :: wordsGo rest []
    else wordsGo rest (c :: acc)

/-- Python `s.split()`: split on whitespace runs, no empty tokens. -/
def pyWords (s : String) : List String :=
  (wordsGo s.data []).map String.mk

/-- Python `s.strip()`: remove leading and trailing whitespace. -/
def pyTrim (s : String) : String :=
  String.mk (((s.data.dropWhile pyIsSpace).reverse.dropWhile pyIsSpace).reverse)

/-- Python `s.lower()` (ASCII behaviour). -/
def pyLower (s : String) : String :=
  String.mk (s.data.map Char.toLower)

/-- Python `s[:n]` on a string (slice of code points). -/
def pyTake (s : String) (n : Nat) : String :=
  String.mk (s.data.take n)

/-- Python `sep.join(parts)`. -/
def pyJoin (sep : String) : List String → String
  | [] => ""
  | [a] => a
  | a :: rest => a ++ sep ++ pyJoin sep rest

/-- Auxiliary for `pySplitChar`. -/
def splitCharGo (sep : Char) : List Char → List Char → List (List Char)
  | [], acc => [acc.reverse]
  | c :: rest, acc =>
    if c = sep then acc.reverse :: splitCharGo sep rest []
    else splitCharGo sep rest (c :: acc)

/-- Python `s.split(sep)` for a one-character separator (keeps empty parts). -/
def pySplitChar (sep : Char) (s : String) : List String :=
  (splitCharGo sep s.data []).map String.mk

/-- Auxiliary for `pySplitSub`; `fuel` bounds the recursion (`length + 1`). -/
def splitSubGo (sep : List Char) : Nat → List Char → List Char → List (List Char)
  | 0, rem, acc => [acc.reverse ++ rem]
  | fuel + 1, rem, acc =>
    if startsWithChars sep rem then
      acc.reverse :: splitSubGo sep fuel (rem.drop sep.length) []
    else
      match rem with
      | [] => [acc.reverse]
      | c :: t => splitSubGo sep fuel t (c :: acc)

/-- Python `s.split(sep)` for a non-empty multi-character separator
(leftmost, non-overlapping; keeps empty parts). -/
def pySplitSub (sep : String) (s : String) : List String :=
  (splitSubGo sep.data (s.data.length + 1) s.data []).map String.mk

/-- Python `s.split(sep, 1)` restricted to the case used by the code:
`none` when `sep` does not occur in `s` (the code guards with `sep in s`),
otherwise the parts before and after the first occurrence. -/
def splitOnceGo (sep : List Char) : List Char → List Char → Option (List Char × List Char)
  | [], _ => none
  | c :: t, acc =>
    if startsWithChars sep (c :: t) then some (acc.reverse, (c :: t).drop sep.length)
    else splitOnceGo sep t (c :: acc)

/-- `pySplitOnce sep s`: first-occurrence split, `none` if `sep ∉ s`. -/
def pySplitOnce (sep : String) (s : String) : Option (String × String) :=
  (splitOnceGo sep.data s.data []).map fun p => (String.mk p.1, String.mk p.2)

/-- Auxiliary for `pyReplace`; `fuel` bounds the recursion. -/
def replaceGo (old new : List Char) : Nat → List Char → List Char
  | 0, s => s
  | fuel + 1, s =>
    if startsWithChars old s then new ++ replaceGo old new fuel (s.drop old.length)
    else
      match s with
      | [] => []
      | c :: t => c :: replaceGo old new fuel t

/-- Python `s.replace(old, new)` for non-empty `old` (leftmost, non-overlapping). -/
def pyReplace (s old new : String) : String :=
  String.mk (replaceGo old.data new.data (s.data.length + 1) s.data)

/-! ## The Entry data model and Python-dict operations -/

/-- A normalized bibliographic record (§3 of the spec): entry kind, citation
key and a lower-cased-field-name → value mapping. -/
structure Entry where
  type : String
  key : String
  fields : List (String × String)
deriving DecidableEq, Repr

/-- Python `d[k] = v` on an insertion-ordered dict: overwrite in place,
else append. -/
def dictSet : List (String × String) → String → String → List (String × String)
  | [], k, v => [(k, v)]
  | (k', v') :: rest, k, v =>
    if k' = k then (k', v) :: rest else (k', v') :: dictSet rest k v

/-- Python `d.get(k)` / `k in d`: first-occurrence lookup. -/
def dictGet : List (String × String) → String → Option String
  | [], _ => none
  | (k', v') :: rest, k => if k' = k then some v' else dictGet rest k

/-- Python `d.get(k, default)`. -/
def dictGetD (fs : List (String × String)) (k d : String) : String :=
  (dictGet fs k).getD d

/-- The keys of a fields dict. -/
def dictKeys (fs : List (String × String)) : List String :=
  fs.map Prod.fst

/-- The fixed eight-field schema of §3. -/
def schema8 : List String :=
  ["author", "title", "year", "journal", "volume", "number", "pages", "publisher"]

/-! ## Text wrapping (`wrap_text`, source lines 728–758) -/

/-- `max_line_length = first_line_max if is_first_line else subsequent_max`. -/
def lineMax (firstMax subMax : Int) (first : Bool) : Int :=
  if first then firstMax else subMax

/-- The greedy word-accumulation loop of `wrap_text`.  State: remaining words,
the words of the line being built (`curr`), the sum of their lengths (`clen`,
mirroring `current_length`), and the `is_first_line` flag.  Widths are `Int`
because Python subtracts indents from the max width without clamping. -/
def wrapGo (firstMax subMax : Int) : List String → List String → Int → Bool → List String
  | [], curr, _, _ => if curr = [] then [] else [pyJoin " " curr]
  | w :: ws, curr, clen, first =>
    if clen + (w.length : Int) + (curr.length : Int) ≤ lineMax firstMax subMax first then
      wrapGo firstMax subMax ws (curr ++ [w]) (clen + (w.length : Int)) first
    else if curr = [] then
      wrapGo firstMax subMax ws [w] (w.length : Int) first
    else
      pyJoin " " curr :: wrapGo firstMax subMax ws [w] (w.length : Int) false

/-- `wrap_text(text, max_width_chars, first_line_indent, subsequent_indent)`. -/
def wrapText (text : String) (maxWidthChars firstLineIndent subsequentIndent : Int) : List String :=
  wrapGo (maxWidthChars - firstLineIndent) (maxWidthChars - subsequentIndent)
    (pyWords text) [] 0 true

/-! ## Numbering markers (`get_numbering_marker`, source lines 398–435) -/

/-- The fixed symbol table of the `symbols` numbering style. -/
def numberingSymbols : List String :=
  ["*", "†", "‡", "§", "¶", "‖", "**", "††", "‡‡"]

/-- The hard-coded lowercase roman numerals i–xx. -/
def romanNumerals : List String :=
  ["i", "ii", "iii", "iv", "v", "vi", "vii", "viii", "ix", "x",
   "xi", "xii", "xiii", "xiv", "xv", "xvi", "xvii", "xviii", "xix", "xx"]

/-- `get_numbering_marker(index)` with the numbering style made explicit.
Indices are `Nat`: the pipeline only ever passes `1 ≤ index` (Python's
negative-index wraparound at `index = 0` is outside the modelled range). -/
def getNumberingMarker (style : String) (index : Nat) : String :=
  if style = "numeric" then "[" ++ toString index ++ "]"
  else if style = "numeric_dot" then toString index ++ "."
  else if style = "numeric_paren" then "(" ++ toString index ++ ")"
  else if style = "bullet" then "•"
  else if style = "dash" then "–"
  else if style = "asterisk" then "*"
  else if style = "symbols" then
    if index - 1 < numberingSymbols.length then numberingSymbols.getD (index - 1) ""
    else "[" ++ toString index ++ "]"
  else if style = "alpha" then
    if index ≤ 26 then String.mk [Char.ofNat (96 + index)] ++ "."
    else "[" ++ toString index ++ "]"
  else if style = "roman" then
    if index - 1 < romanNumerals.length then romanNumerals.getD (index - 1) "" ++ "."
    else "[" ++ toString index ++ "]"
  else if style = "none" then ""
  else "[" ++ toString index ++ "]"

/-- The ten supported numbering identifiers (§6). -/
def numberingIds : List String :=
  ["numeric", "numeric_dot", "numeric_paren", "bullet", "dash", "asterisk",
   "symbols", "alpha", "roman", "none"]

/-! ## Entry sorting (`sort_entries`, source lines 375–384)

Python's `sorted(entries, key=f)` is a stable ascending sort under the
lexicographic code-point order on the string keys; it is modelled with
`List.mergeSort` (stable) under `pyStrLe`, Python's `<=` on strings. -/

/-- Lexicographic comparison of code-point lists. -/
def charListLe : List Char → List Char → Bool
  | [], _ => true
  | _ :: _, [] => false
  | a :: as, b :: bs =>
    if a.toNat < b.toNat then true
    else if b.toNat < a.toNat then false
    else charListLe as bs

/-- Python `a <= b` on strings: lexicographic by code point. -/
def pyStrLe (a b : String) : Bool := charListLe a.data b.data

/-- The sort key of the `author` order: lower-cased author field, missing → "". -/
def authorSortKey (e : Entry) : String := pyLower (dictGetD e.fields "author" "")

/-- The sort key of the `year` order: raw year string, missing → "9999". -/
def yearSortKey (e : Entry) : String := dictGetD e.fields "year" "9999"

/-- The sort key of the `title` order: lower-cased title, missing → "". -/
def titleSortKey (e : Entry) : String := pyLower (dictGetD e.fields "title" "")

/-- `sort_entries(entries)` with the sort order made explicit. -/
def sortEntries (order : String) (entries : List Entry) : List Entry :=
  if order = "author" then
    entries.mergeSort fun a b => pyStrLe (authorSortKey a) (authorSortKey b)
  else if order = "year" then
    entries.mergeSort fun a b => pyStrLe (yearSortKey a) (yearSortKey b)
  else if order = "title" then
    entries.mergeSort fun a b => pyStrLe (titleSortKey a) (titleSortKey b)
  else entries

/-- The key function `sort_entries` compares under each order (constant for
`appearance`, where no comparison happens). -/
def sortKeyFn (order : String) (e : Entry) : String :=
  if order = "author" then authorSortKey e
  else if order = "year" then yearSortKey e
  else if order = "title" then titleSortKey e
  else ""

/-! ## Author-name formatting (`format_authors`, source lines 469–518)

`authors[0]` on an empty list raises `IndexError` in Python (reachable in the
MLA branch), so the formatter lives in `Except Unit`. -/

/-- The author list: substitute `" and "` by `", "`, split on commas, strip,
drop empties (source lines 474–475). -/
def authorsList (author_str : String) : List String :=
  ((pySplitChar ',' (pyReplace author_str " and " ", ")).map pyTrim).filter (· ≠ "")

/-- One author in `"Last, F. M."` form (APA/Chicago/Harvard family). -/
def apaOneAuthor (au : String) : String :=
  let parts := pyWords au
  if 1 < parts.length then
    parts.getLastD "" ++ ", " ++ (pyJoin ". " (parts.dropLast.map (pyTake · 1)) ++ ".")
  else au

/-- The final join of the APA family: oxford ampersand for 3+, `" & "` for 2. -/
def apaJoinAuthors (formatted : List String) : String :=
  if 2 < formatted.length then
    pyJoin ", " formatted.dropLast ++ ", & " ++ formatted.getLastD ""
  else if formatted.length = 2 then
    formatted.headD "" ++ " & " ++ formatted.getLastD ""
  else formatted.headD ""

/-- One author in `"Last II"` form (IEEE/Vancouver/Nature family). -/
def ieeeOneAuthor (au : String) : String :=
  let parts := pyWords au
  if 1 < parts.length then
    parts.getLastD "" ++ " " ++ pyJoin "" (parts.dropLast.map (pyTake · 1))
  else au

/-- `format_authors(author_str, style)`. -/
def formatAuthorsE (author_str style : String) : Except Unit String :=
  if author_str = "" then .ok ""
  else
    let authors := authorsList author_str
    if style ∈ (["apa", "apa7", "chicago", "harvard"] : List String) then
      .ok (apaJoinAuthors (authors.map apaOneAuthor))
    else if style = "mla" then
      match authors with
      | [] => .error ()
      | a :: rest => .ok (if rest ≠ [] then a ++ ", et al." else a)
    else if style ∈ (["ieee", "vancouver", "nature"] : List String) then
      let formatted := (authors.take 6).map ieeeOneAuthor
      if 6 < authors.length then .ok (pyJoin ", " formatted ++ ", et al.")
      else .ok (pyJoin ", " formatted)
    else .ok (pyJoin ", " authors)

/-! ## The nine style composers (source lines 520–726)

Each mirrors its Python counterpart: a `parts` list is built by conditional
appends and joined with single spaces; `'f' in fields` / `fields['f']` pairs
become a `match` on `dictGet`. -/

/-- `format_apa` (also Harvard and the unknown-style fallback). -/
def formatApa (entry_type authors year title : String) (fields : List (String × String)) : String :=
  let parts :=
    if authors ≠ "" then [authors ++ " (" ++ year ++ ")."] else ["(" ++ year ++ ")."]
  let parts :=
    if entry_type = "article" then
      parts ++ [title ++ "."] ++
        (match dictGet fields "journal" with
         | some journal =>
           let volStr := journal
           let volStr := volStr ++ (match dictGet fields "volume" with
             | some v => ", " ++ v | none => "")
           let volStr := volStr ++ (match dictGet fields "number" with
             | some n => "(" ++ n ++ ")" | none => "")
           let volStr := volStr ++ (match dictGet fields "pages" with
             | some p => ", " ++ p | none => "")
           [volStr ++ "."]
         | none => [])
    else
      parts ++ [title ++ "."] ++
        (match dictGet fields "publisher" with
         | some pub => [pub ++ "."] | none => [])
  pyJoin " " parts

/-- `format_mla`. -/
def formatMla (entry_type authors year title : String) (fields : List (String × String)) : String :=
  let parts := if authors ≠ "" then [authors ++ "."] else []
  let parts := parts ++ ["\"" ++ title ++ ".\""]
  let parts :=
    if entry_type = "article" ∧ (dictGet fields "journal").isSome then
      parts ++ [(dictGet fields "journal").getD "" ++ ","] ++
        (match dictGet fields "volume" with
         | some v => ["vol. " ++ v ++ ","] | none => []) ++
        (match dictGet fields "number" with
         | some n => ["no. " ++ n ++ ","] | none => []) ++
        [year ++ ","] ++
        (match dictGet fields "pages" with
         | some p => ["pp. " ++ p ++ "."] | none => [])
    else
      parts ++ (match dictGet fields "publisher" with
        | some pub => [pub ++ ", " ++ year ++ "."] | none => [])
  pyJoin " " parts

/-- `format_chicago`. -/
def formatChicago (entry_type authors year title : String) (fields : List (String × String)) : String :=
  let parts := if authors ≠ "" then [authors ++ "."] else []
  let parts := parts ++ [year ++ ". \"" ++ title ++ ".\""]
  let parts :=
    if entry_type = "article" ∧ (dictGet fields "journal").isSome then
      let journalPart := (dictGet fields "journal").getD ""
      let journalPart := journalPart ++ (match dictGet fields "volume" with
        | some v => " " ++ v | none => "")
      let journalPart := journalPart ++ (match dictGet fields "number" with
        | some n => ", no. " ++ n | none => "")
      let journalPart := journalPart ++ (match dictGet fields "pages" with
        | some p => ": " ++ p | none => "")
      parts ++ [journalPart ++ "."]
    else
      parts ++ (match dictGet fields "publisher" with
        | some pub => [pub ++ "."] | none => [])
  pyJoin " " parts

/-- `format_ieee`. -/
def formatIeee (entry_type authors year title : String) (fields : List (String × String)) : String :=
  let parts := if authors ≠ "" then [authors ++ ","] else []
  let parts := parts ++ ["\"" ++ title ++ ",\""]
  let parts :=
    if entry_type = "article" ∧ (dictGet fields "journal").isSome then
      let journalPart := (dictGet fields "journal").getD ""
      let journalPart := journalPart ++ (match dictGet fields "volume" with
        | some v => ", vol. " ++ v | none => "")
      let journalPart := journalPart ++ (match dictGet fields "number" with
        | some n => ", no. " ++ n | none => "")
      let journalPart := journalPart ++ (match dictGet fields "pages" with
        | some p => ", pp. " ++ p | none => "")
      parts ++ [journalPart ++ ", " ++ year ++ "."]
    else
      parts ++ (match dictGet fields "publisher" with
        | some pub => [pub ++ ", " ++ year ++ "."] | none => [])
  pyJoin " " parts

/-- `format_vancouver` (note: it reads the non-schema field `month`). -/
def formatVancouver (entry_type authors year title : String) (fields : List (String × String)) : String :=
  let parts := if authors ≠ "" then [authors ++ "."] else []
  let parts := parts ++ [title ++ "."]
  let parts :=
    if entry_type = "article" ∧ (dictGet fields "journal").isSome then
      let parts := parts ++ [(dictGet fields "journal").getD "" ++ "."]
      let parts := parts ++
        (if (dictGet fields "year").isSome then
          let dateStr := match dictGet fields "month" with
            | some m => year ++ " " ++ m | none => year
          [dateStr ++ ";"]
         else [])
      parts ++
        (match dictGet fields "volume" with
         | some v =>
           let volStr := v
           let volStr := volStr ++ (match dictGet fields "number" with
             | some n => "(" ++ n ++ ")" | none => "")
           let volStr := volStr ++ (match dictGet fields "pages" with
             | some p => ":" ++ p | none => "")
           [volStr ++ "."]
         | none => [])
    else
      parts ++ (match dictGet fields "publisher" with
        | some pub => [pub ++ "; " ++ year ++ "."] | none => [])
  pyJoin " " parts

/-- `format_ama`. -/
def formatAma (entry_type authors year title : String) (fields : List (String × String)) : String :=
  let parts := if authors ≠ "" then [authors ++ "."] else []
  let parts := parts ++ [title ++ "."]
  let parts :=
    if entry_type = "article" ∧ (dictGet fields "journal").isSome then
      let parts := parts ++ [(dictGet fields "journal").getD "" ++ "."]
      let parts := parts ++
        (if (dictGet fields "year").isSome then [year ++ ";"] else [])
      parts ++
        (match dictGet fields "volume" with
         | some v =>
           let volStr := v
           let volStr := volStr ++ (match dictGet fields "number" with
             | some n => "(" ++ n ++ ")" | none => "")
           let volStr := volStr ++ (match dictGet fields "pages" with
             | some p => ":" ++ p | none => "")
           [volStr ++ "."]
         | none => [])
    else
      parts ++ (match dictGet fields "publisher" with
        | some pub => [pub ++ "; " ++ year ++ "."] | none => [])
  pyJoin " " parts

/-- `format_acs`. -/
def formatAcs (entry_type authors year title : String) (fields : List (String × String)) : String :=
  let parts := if authors ≠ "" then [authors ++ "."] else []
  let parts := parts ++ [title ++ "."]
  let parts :=
    if entry_type = "article" ∧ (dictGet fields "journal").isSome then
      let journalPart := (dictGet fields "journal").getD ""
      let journalPart := journalPart ++
        (if (dictGet fields "year").isSome then " " ++ year else "")
      let journalPart := journalPart ++ (match dictGet fields "volume" with
        | some v => ", " ++ v | none => "")
      let journalPart := journalPart ++ (match dictGet fields "pages" with
        | some p => ", " ++ p | none => "")
      parts ++ [journalPart ++ "."]
    else
      parts ++ (match dictGet fields "publisher" with
        | some pub => [pub ++ ": " ++ year ++ "."] | none => [])
  pyJoin " " parts

/-- `format_nature`. -/
def formatNature (entry_type authors year title : String) (fields : List (String × String)) : String :=
  let parts := if authors ≠ "" then [authors ++ "."] else []
  let parts := parts ++ [title ++ "."]
  let parts :=
    if entry_type = "article" ∧ (dictGet fields "journal").isSome then
      let volStr := (dictGet fields "journal").getD ""
      let volStr := volStr ++ (match dictGet fields "volume" with
        | some v => " " ++ v ++ "," | none => "")
      let volStr := volStr ++ (match dictGet fields "pages" with
        | some p => " " ++ p | none => "")
      parts ++ [volStr ++ " (" ++ year ++ ")."]
    else
      parts ++ (match dictGet fields "publisher" with
        | some pub => ["(" ++ pub ++ ", " ++ year ++ ")."] | none => [])
  pyJoin " " parts

/-- `format_entry_python(entry, style)` (source lines 437–467): author
formatting (which can raise, see `formatAuthorsE`), then the style dispatch;
a missing year is substituted by `"n.d."`, a missing title by `""`. -/
def formatEntryPythonE (entry : Entry) (style : String) : Except Unit String := do
  let fields := entry.fields
  let authors ← formatAuthorsE (dictGetD fields "author" "") style
  let year := dictGetD fields "year" "n.d."
  let title := dictGetD fields "title" ""
  if style = "apa" ∨ style = "apa7" then pure (formatApa entry.type authors year title fields)
  else if style = "mla" then pure (formatMla entry.type authors year title fields)
  else if style = "chicago" then pure (formatChicago entry.type authors year title fields)
  else if style = "harvard" then pure (formatApa entry.type authors year title fields)
  else if style = "ieee" then pure (formatIeee entry.type authors year title fields)
  else if style = "vancouver" then pure (formatVancouver entry.type authors year title fields)
  else if style = "ama" then pure (formatAma entry.type authors year title fields)
  else if style = "acs" then pure (formatAcs entry.type authors year title fields)
  else if style = "nature" then pure (formatNature entry.type authors year title fields)
  else pure (formatApa entry.type authors year title fields)

/-- The ten supported style identifiers (§6). -/
def styleIds : List String :=
  ["apa", "apa7", "mla", "chicago", "harvard", "ieee", "vancouver", "ama", "acs", "nature"]

/-- The loop body of `format_with_python`: format one entry and append the
result when truthy (non-empty). -/
def formatStep (style : String) (acc : List String) (entry : Entry) :
    Except Unit (List String) := do
  let formatted ← formatEntryPythonE entry style
  pure (if formatted ≠ "" then acc ++ [formatted] else acc)

/-- `format_with_python(entries)` (source lines 386–396): format each entry,
keeping only truthy (non-empty) results; exceptions propagate. -/
def formatWithPython (style : String) (entries : List Entry) : Except Unit (List String) :=
  entries.foldlM (formatStep style) []

/-! ## Reference layout (`add_references_to_document`, source lines 1042–1078)

Only the text side is modelled: the marker/indent computation and the calls
into `wrap_text`.  `max_chars` is `int(max_width / (font_size * 0.6))` in the
source — a float computation treated here as an opaque `Int` input.  SVG
element creation is out of scope (§1). -/

/-- The text a reference is wrapped with: `f"{marker} {ref}"`, or `ref` when
the marker is empty. -/
def refFullText (numberingStyle : String) (i : Nat) (ref : String) : String :=
  let marker := getNumberingMarker numberingStyle i
  if marker ≠ "" then marker ++ " " ++ ref else ref

/-- The wrapped lines of the reference at 1-based position `i` out of `nRefs`:
`marker_chars` is computed once from the marker of the LAST index
(`len(formatted_refs)`) and used for every entry. -/
def refWrappedLines (numberingStyle : String) (hanging : Bool) (maxChars : Int)
    (nRefs : Nat) (i : Nat) (ref : String) : List String :=
  let markerChars : Int := (getNumberingMarker numberingStyle nRefs).length + 1
  let marker := getNumberingMarker numberingStyle i
  let subsequentIndent : Int := if hanging ∧ marker ≠ "" then markerChars else 0
  wrapText (refFullText numberingStyle i ref) maxChars 0 subsequentIndent

/-- The per-reference wrapped lines of the whole loop
(`enumerate(formatted_refs, 1)`). -/
def addReferencesWrapped (numberingStyle : String) (hanging : Bool) (maxChars : Int)
    (refs : List String) : List (List String) :=
  refs.enum.map fun p => refWrappedLines numberingStyle hanging maxChars refs.length (p.1 + 1) p.2

/-! ## A small backtracking regex engine (Python `re` semantics)

`parse_bibtex` is regex-driven.  The engine below implements exactly the
constructs its three patterns use — character classes, concatenation,
alternation (left-priority), greedy star and capturing groups — with Python's
backtracking priority order: the first element of the returned match list is
the match Python's `re` finds.  A greedy star stops iterating on an
empty-width iteration (none of the patterns' bodies can match empty).
-/

/-- Regular expressions over characters. -/
inductive RE where
  | cls (p : Char → Bool)
  | seq (a b : RE)
  | alt (a b : RE)
  | star (r : RE)
  | group (idx : Nat) (r : RE)

/-- Captured groups: group index → captured characters (innermost first). -/
abbrev ReCaps := List (Nat × List Char)

/-- All ways a greedy star of `matchR` can consume a prefix of `s`, longest
(most iterations) first; an iteration must consume at least one character. -/
def starMatch (matchR : List Char → ReCaps → List (List Char × ReCaps)) :
    Nat → List Char → ReCaps → List (List Char × ReCaps)
  | 0, s, caps => [(s, caps)]
  | fuel + 1, s, caps =>
    ((matchR s caps).flatMap fun pr =>
      if pr.1.length < s.length then starMatch matchR fuel pr.1 pr.2 else []) ++
    [(s, caps)]

/-- All matches of `r` against a prefix of `s`, in Python's backtracking
priority order; each result is the remaining suffix and the captures. -/
def reMatch : RE → List Char → ReCaps → List (List Char × ReCaps)
  | .cls _, [], _ => []
  | .cls p, c :: rest, caps => if p c then [(rest, caps)] else []
  | .seq a b, s, caps => (reMatch a s caps).flatMap fun pr => reMatch b pr.1 pr.2
  | .alt a b, s, caps => reMatch a s caps ++ reMatch b s caps
  | .group i r, s, caps =>
    (reMatch r s caps).map fun pr => (pr.1, (i, s.take (s.length - pr.1.length)) :: pr.2)
  | .star r, s, caps => starMatch (reMatch r) (s.length + 1) s caps

/-- A literal character. -/
def reLit (c : Char) : RE := .cls (· = c)

/-- `p+` for a character class, i.e. `pp*`. -/
def rePlus (p : Char → Bool) : RE := .seq (.cls p) (.star (.cls p))

/-- `\s*`. -/
def reWs : RE := .star (.cls pyIsSpace)

/-- Python's `\w` (ASCII part: letters, digits, underscore). -/
def wordChar (c : Char) : Bool := c.isAlphanum || c = '_'

/-- `re.finditer`: scan start positions left to right, take the first match in
priority order, continue after its end (all patterns used match at least one
character, so the zero-width case only guards the model's totality).  Each
match is returned as its captures, with the whole match stored at index 0. -/
def findIterGo (r : RE) : Nat → List Char → List ReCaps
  | 0, _ => []
  | fuel + 1, s =>
    match (reMatch r s []).head? with
    | some pr =>
      if s.length - pr.1.length = 0 then
        match s with
        | [] => []
        | _ :: t => findIterGo r fuel t
      else ((0, s.take (s.length - pr.1.length)) :: pr.2) :: findIterGo r fuel pr.1
    | none =>
      match s with
      | [] => []
      | _ :: t => findIterGo r fuel t

/-- All non-overlapping matches of `r` in `s`, leftmost first. -/
def findIter (r : RE) (s : List Char) : List ReCaps :=
  findIterGo r (s.length + 1) s

/-- The text captured by group `i` (empty if the group is absent). -/
def capGet (i : Nat) (caps : ReCaps) : List Char :=
  match caps.find? (fun pr => pr.1 = i) with
  | some pr => pr.2
  | none => []

/-- `re.sub(r, group 1, s)`: replace every match by its first capture group. -/
def reSubGo (r : RE) : Nat → List Char → List Char
  | 0, s => s
  | fuel + 1, s =>
    match (reMatch r s []).head? with
    | some pr =>
      if s.length - pr.1.length = 0 then
        match s with
        | [] => []
        | c :: t => c :: reSubGo r fuel t
      else capGet 1 pr.2 ++ reSubGo r fuel pr.1
    | none =>
      match s with
      | [] => []
      | c :: t => c :: reSubGo r fuel t

/-- `re.sub` driver. -/
def reSub (r : RE) (s : List Char) : List Char :=
  reSubGo r (s.length + 1) s

/-- `re.split(r, s)`: cut `s` at every match of `r`. -/
def reSplitGo (r : RE) : Nat → List Char → List Char → List (List Char)
  | 0, rem, acc => [acc.reverse ++ rem]
  | fuel + 1, s, acc =>
    match (reMatch r s []).head? with
    | some pr =>
      if s.length - pr.1.length = 0 then
        match s with
        | [] => [acc.reverse]
        | c :: t => reSplitGo r fuel t (c :: acc)
      else acc.reverse :: reSplitGo r fuel pr.1 []
    | none =>
      match s with
      | [] => [acc.reverse]
      | c :: t => reSplitGo r fuel t (c :: acc)

/-- `re.split` driver. -/
def reSplit (r : RE) (s : List Char) : List (List Char) :=
  reSplitGo r (s.length + 1) s []

/-! ## The BibTeX parser (`parse_bibtex`, source lines 147–184) -/

/-- The body of a BibTeX entry: `(?:[^\x7b\x7d]|\x7b[^\x7b\x7d]*\x7d)*`
(one level of nested braces tolerated). -/
def bibtexBodyRE : RE :=
  .star (.alt (.cls fun c => c != '{' && c != '}')
    (.seq (reLit '{') (.seq (.star (.cls fun c => c != '{' && c != '}')) (reLit '}'))))

/-- The entry pattern `@(\w+)\s*\x7b\s*([^,]+)\s*,\s*((?:[^\x7b\x7d]|\x7b[^\x7b\x7d]*\x7d)*)\x7d`. -/
def bibtexEntryRE : RE :=
  .seq (reLit '@') (.seq (.group 1 (rePlus wordChar)) (.seq reWs (.seq (reLit '{')
    (.seq reWs (.seq (.group 2 (rePlus (· != ','))) (.seq reWs (.seq (reLit ',')
      (.seq reWs (.seq (.group 3 bibtexBodyRE) (reLit '}'))))))))))

/-- The field pattern `(\w+)\s*=\s*[\x7b"]((?:[^\x7b\x7d"]|\x7b[^\x7b\x7d]*\x7d)*)[\x7d"]`. -/
def bibtexFieldRE : RE :=
  .seq (.group 1 (rePlus wordChar)) (.seq reWs (.seq (reLit '=') (.seq reWs
    (.seq (.cls fun c => c = '{' || c = '"')
      (.seq (.group 2 (.star (.alt (.cls fun c => c != '{' && c != '}' && c != '"')
        (.seq (reLit '{') (.seq (.star (.cls fun c => c != '{' && c != '}')) (reLit '}'))))))
        (.cls fun c => c = '}' || c = '"'))))))

/-- The brace-stripping pattern `\x7b([^\x7b\x7d]*)\x7d` used with `re.sub`. -/
def bibtexSubRE : RE :=
  .seq (reLit '{') (.seq (.group 1 (.star (.cls fun c => c != '{' && c != '}'))) (reLit '}'))

/-- The fields of one BibTeX entry, from the captured entry body. -/
def parseBibtexFields (fieldsStr : List Char) : List (String × String) :=
  (findIter bibtexFieldRE fieldsStr).foldl (fun fs caps =>
    let fieldName := pyLower (String.mk (capGet 1 caps))
    let fieldValue := pyTrim (String.mk (capGet 2 caps))
    let fieldValue := String.mk (reSub bibtexSubRE fieldValue.data)
    dictSet fs fieldName fieldValue) []

/-- `parse_bibtex(filepath)`.  `.error` input models a raised read (caught,
returning `[]`); nothing in the body itself can raise. -/
def parseBibtex (input : Except Unit String) : List Entry :=
  match input with
  | .error _ => []
  | .ok content =>
    (findIter bibtexEntryRE content.data).map fun caps =>
      { type := pyLower (String.mk (capGet 1 caps))
        key := pyTrim (String.mk (capGet 2 caps))
        fields := parseBibtexFields (capGet 3 caps) }

/-! ## The RIS parser (`parse_ris`, source lines 186–249) -/

/-- One line of a RIS record: the `TAG  - VALUE` dispatch updating
`(entry_type, fields)` (source lines 205–236). -/
def risLineUpdate (st : String × List (String × String)) (rawLine : String) :
    String × List (String × String) :=
  let line := pyTrim rawLine
  if line = "" then st
  else
    match pySplitOnce "  -" line with
    | none => st
    | some (tagRaw, valueRaw) =>
      let tag := pyTrim tagRaw
      let value := pyTrim valueRaw
      let etype := st.1
      let fields := st.2
      if tag = "TY" then (pyLower value, fields)
      else if tag = "AU" then
        match dictGet fields "author" with
        | some a => (etype, dictSet fields "author" (a ++ " and " ++ value))
        | none => (etype, dictSet fields "author" value)
      else if tag = "TI" then (etype, dictSet fields "title" value)
      else if tag = "PY" then (etype, dictSet fields "year" ((pySplitChar '/' value).headD ""))
      else if tag = "JO" ∨ tag = "JF" ∨ tag = "T2" then (etype, dictSet fields "journal" value)
      else if tag = "VL" then (etype, dictSet fields "volume" value)
      else if tag = "IS" then (etype, dictSet fields "number" value)
      else if tag = "SP" then (etype, dictSet fields "pages" value)
      else if tag = "EP" then
        match dictGet fields "pages" with
        | some p => (etype, dictSet fields "pages" (p ++ "-" ++ value))
        | none => (etype, fields)
      else if tag = "PB" then (etype, dictSet fields "publisher" value)
      else st

/-- `parse_ris(filepath)`: split on `"ER  -"`, fold the tag lines of each
non-blank record, keep records with at least one field.  Nothing in the body
can raise; `.error` input models a raised read. -/
def parseRis (input : Except Unit String) : List Entry :=
  match input with
  | .error _ => []
  | .ok content =>
    (pySplitSub "ER  -" content).foldl (fun acc record =>
      if pyTrim record = "" then acc
      else
        let st := (pySplitChar '\n' record).foldl risLineUpdate ("article", [])
        if st.2 ≠ [] then
          acc ++ [{ type := st.1, key := pyTake (dictGetD st.2 "title" "unknown") 20,
                    fields := st.2 }]
        else acc) []

/-! ## The EndNote parser (`parse_endnote`, source lines 314–373)

`tag = line[1]` raises `IndexError` on a line consisting of a single `%`,
so the record fold lives in `Except Unit`; the parser's `try` catches it. -/

/-- The record separator `\n\s*\n` of `re.split`. -/
def endnoteSepRE : RE := .seq (reLit '\n') (.seq (.star (.cls pyIsSpace)) (reLit '\n'))

/-- One line of an EndNote record: `%` + one-letter tag + value. -/
def endnoteLineUpdate (st : String × List (String × String)) (line : String) :
    Except Unit (String × List (String × String)) :=
  if pyTrim line = "" ∨ ¬ startsWithChars ['%'] line.data then .ok st
  else
    match line.data with
    | _ :: tag :: rest =>
      let value := pyTrim (String.mk rest)
      let etype := st.1
      let fields := st.2
      if tag = '0' then .ok (pyLower value, fields)
      else if tag = 'A' then
        match dictGet fields "author" with
        | some a => .ok (etype, dictSet fields "author" (a ++ " and " ++ value))
        | none => .ok (etype, dictSet fields "author" value)
      else if tag = 'T' then .ok (etype, dictSet fields "title" value)
      else if tag = 'D' then .ok (etype, dictSet fields "year" (pyTake value 4))
      else if tag = 'J' then .ok (etype, dictSet fields "journal" value)
      else if tag = 'V' then .ok (etype, dictSet fields "volume" value)
      else if tag = 'N' then .ok (etype, dictSet fields "number" value)
      else if tag = 'P' then .ok (etype, dictSet fields "pages" value)
      else if tag = 'I' then .ok (etype, dictSet fields "publisher" value)
      else .ok st
    | _ => .error ()

/-- The `try` body of `parse_endnote`. -/
def parseEndnoteBody (content : String) : Except Unit (List Entry) :=
  ((reSplit endnoteSepRE content.data).map String.mk).foldlM (fun acc record =>
    if pyTrim record = "" then pure acc
    else do
      let st ← (pySplitChar '\n' record).foldlM endnoteLineUpdate ("article", [])
      pure (if st.2 ≠ [] then
        acc ++ [{ type := st.1, key := pyTake (dictGetD st.2 "title" "unknown") 20,
                  fields := st.2 : Entry }]
      else acc)) []

/-- `parse_endnote(filepath)`: the `except` clause returns `[]`. -/
def parseEndnote (input : Except Unit String) : List Entry :=
  match input >>= parseEndnoteBody with
  | .ok entries => entries
  | .error _ => []

/-! ## The CSL-JSON parser (`parse_json`, source lines 251–312)

`json.load` yields a dynamically-typed value, modelled by `Json`.  The item
processing can raise `TypeError` / `KeyError` / `IndexError` /
`AttributeError` on values of unexpected shape; those paths are modelled in
`Except Unit` and the parser's `try` catches them, returning `[]`. -/

/-- A decoded JSON value (numbers restricted to integers; no claim depends on
float rendering). -/
inductive Json where
  | null
  | bool (b : Bool)
  | num (n : Int)
  | str (s : String)
  | arr (l : List Json)
  | obj (kvs : List (String × Json))

/-- First-occurrence lookup in a JSON object. -/
def jsonLookup (kvs : List (String × Json)) (k : String) : Option Json :=
  match kvs.find? (fun kv => kv.1 = k) with
  | some kv => some kv.2
  | none => none

mutual

/-- Python `repr` of a decoded JSON value (string quoting approximated by
plain single quotes; only ever applied to field *values*, which no claim
inspects). -/
def pyRepr : Json → String
  | .null => "None"
  | .bool true => "True"
  | .bool false => "False"
  | .num n => toString n
  | .str s => "'" ++ s ++ "'"
  | .arr l => "[" ++ pyJoin ", " (pyReprList l) ++ "]"
  | .obj kvs => "\x7b" ++ pyJoin ", " (pyReprObj kvs) ++ "\x7d"

/-- `repr` of the elements of a JSON array. -/
def pyReprList : List Json → List String
  | [] => []
  | j :: t => pyRepr j :: pyReprList t

/-- `repr` of the key–value pairs of a JSON object. -/
def pyReprObj : List (String × Json) → List String
  | [] => []
  | kv :: t => ("'" ++ kv.1 ++ "': " ++ pyRepr kv.2) :: pyReprObj t

end

/-- Python `str` of a decoded JSON value. -/
def pyStr (j : Json) : String :=
  match j with
  | .str s => s
  | other => pyRepr other

/-- Python `k in item`: key test on dicts, substring test on strings, element
test on lists; `TypeError` otherwise. -/
def pyContainsJson (item : Json) (k : String) : Except Unit Bool :=
  match item with
  | .obj kvs => .ok (kvs.any fun kv => kv.1 = k)
  | .str s => .ok ((pySplitSub k s).length > 1)
  | .arr l => .ok (l.any fun j => match j with | .str s => s = k | _ => false)
  | _ => .error ()

/-- Python `item[k]` for a string key: dict lookup (`KeyError` when absent),
`TypeError` on anything else. -/
def pySubscript (item : Json) (k : String) : Except Unit Json :=
  match item with
  | .obj kvs =>
    match jsonLookup kvs k with
    | some v => .ok v
    | none => .error ()
  | _ => .error ()

/-- Python `item[0]`: list indexing (`IndexError` when out of range), string
indexing, errors otherwise. -/
def pySubscriptZero (item : Json) : Except Unit Json :=
  match item with
  | .arr l =>
    match l.head? with
    | some v => .ok v
    | none => .error ()
  | .str s =>
    match s.data.head? with
    | some c => .ok (.str (String.mk [c]))
    | none => .error ()
  | _ => .error ()

/-- Python `for x in item`: lists yield elements, strings yield one-character
strings, dicts yield their keys; `TypeError` otherwise. -/
def pyIter (j : Json) : Except Unit (List Json) :=
  match j with
  | .arr l => .ok l
  | .str s => .ok (s.data.map fun c => .str (String.mk [c]))
  | .obj kvs => .ok (kvs.map fun kv => .str kv.1)
  | _ => .error ()

/-- Python `item.get(k, default)`: `AttributeError` on non-dicts. -/
def pyGetMethod (item : Json) (k : String) (dflt : Json) : Except Unit Json :=
  match item with
  | .obj kvs => .ok ((jsonLookup kvs k).getD dflt)
  | _ => .error ()

/-- One element of the CSL author array (source lines 269–274): dict with
`family` and `given` → `f"{given} {family}"`; dict with `literal` → the raw
`literal` value; anything else contributes nothing. -/
def jsonAuthorName (a : Json) : Option Json :=
  match a with
  | .obj kvs =>
    if (kvs.any fun kv => kv.1 = "family") ∧ (kvs.any fun kv => kv.1 = "given") then
      some (.str (pyStr ((jsonLookup kvs "given").getD .null) ++ " " ++
        pyStr ((jsonLookup kvs "family").getD .null)))
    else if kvs.any fun kv => kv.1 = "literal" then
      jsonLookup kvs "literal"
    else none
  | _ => none

/-- Python `' and '.join(authors)`: `TypeError` unless every element is a
string. -/
def pyJoinAnd (l : List Json) : Except Unit String := do
  let strs ← l.mapM fun j => match j with
    | .str s => Except.ok s
    | _ => Except.error ()
  pure (pyJoin " and " strs)

/-- The CSL → internal field-name remapping table, in source order. -/
def jsonFieldMap : List (String × String) :=
  [("title", "title"), ("container-title", "journal"), ("publisher", "publisher"),
   ("volume", "volume"), ("issue", "number"), ("page", "pages")]

/-- A decoded JSON value rendered for `Entry.type` / `Entry.key` (Python keeps
the raw object there; non-string values are represented by their `str`
rendering, which no claim inspects). -/
def jsonToStr (j : Json) : String :=
  match j with
  | .str s => s
  | other => pyStr other

/-- The author-extraction block of `parse_json` (source lines 267–275): when
the item has an `author` member, iterate it, collect renderings and join them
with `" and "`, making a one-key fields dict. -/
def jsonAuthorFields (item : Json) (hasAuthor : Bool) :
    Except Unit (List (String × String)) :=
  if hasAuthor then do
    let av ← pySubscript item "author"
    let elems ← pyIter av
    let names := elems.foldl (fun acc a =>
      match jsonAuthorName a with
      | some j => acc ++ [j]
      | none => acc) []
    let joined ← pyJoinAnd names
    pure (dictSet [] "author" joined)
  else pure []

/-- The `field_map` loop of `parse_json` (source lines 277–289). -/
def jsonMapFields (item : Json) (fields : List (String × String)) :
    Except Unit (List (String × String)) :=
  jsonFieldMap.foldlM (fun fs kv => do
    let present ← pyContainsJson item kv.1
    if present then do
      let v ← pySubscript item kv.1
      pure (dictSet fs kv.2 (pyStr v))
    else pure fs) fields

/-- The year-extraction block of `parse_json` (source lines 291–296). -/
def jsonIssuedFields (item : Json) (hasIssued : Bool)
    (fields : List (String × String)) : Except Unit (List (String × String)) :=
  if hasIssued then do
    let iv ← pySubscript item "issued"
    match iv with
    | .obj kvs =>
      if kvs.any fun kv => kv.1 = "date-parts" then do
        let dp ← pySubscript iv "date-parts"
        let first ← pySubscriptZero dp
        let y ← pySubscriptZero first
        pure (dictSet fields "year" (pyStr y))
      else pure fields
    | .str s => pure (dictSet fields "year" (pyTake s 4))
    | _ => pure fields
  else pure fields

/-- The processing of one CSL item (the body of the `for item in data` loop,
source lines 263–306). -/
def processJsonItem (item : Json) : Except Unit Entry := do
  let hasAuthor ← pyContainsJson item "author"
  let fields1 ← jsonAuthorFields item hasAuthor
  let fields2 ← jsonMapFields item fields1
  let hasIssued ← pyContainsJson item "issued"
  let fields3 ← jsonIssuedFields item hasIssued fields2
  let tj ← pyGetMethod item "type" (.str "article-journal")
  let isJournal ← pyContainsJson tj "journal"
  let etype := if isJournal then Json.str "article" else tj
  let kj ← pyGetMethod item "id" (.str (pyTake (dictGetD fields3 "title" "unknown") 20))
  pure { type := jsonToStr etype, key := jsonToStr kj, fields := fields3 }

/-- The `try` body of `parse_json` after `json.load`: wrap a single object in
a list, otherwise iterate the decoded value, processing each item. -/
def parseJsonBody (data : Json) : Except Unit (List Entry) := do
  let items ← match data with
    | .obj kvs => Except.ok [Json.obj kvs]
    | other => pyIter other
  items.foldlM (fun acc it => do
    let e ← processJsonItem it
    pure (acc ++ [e])) []

/-- `parse_json(filepath)`: `.error` input models an unreadable file or
invalid JSON (a raised `json.load`); the `except` clause returns `[]`. -/
def parseJson (input : Except Unit Json) : List Entry :=
  match input >>= parseJsonBody with
  | .ok entries => entries
  | .error _ => []

/-! ## Spec-side definitions

These follow the *spec's words* (not the source) and exist to be compared
with the source-derived definitions above. -/

/-- The greedy subtractive table for roman numerals, descending. -/
def romanPairs : List (Nat × String) :=
  [(1000, "m"), (900, "cm"), (500, "d"), (400, "cd"), (100, "c"), (90, "xc"),
   (50, "l"), (40, "xl"), (10, "x"), (9, "ix"), (5, "v"), (4, "iv"), (1, "i")]

/-- Fuel-driven greedy roman-numeral construction. -/
def romanGo : Nat → Nat → String
  | 0, _ => ""
  | fuel + 1, n =>
    match romanPairs.find? (fun p => p.1 ≤ n) with
    | some p => p.2 ++ romanGo fuel (n - p.1)
    | none => ""

/-- Spec-side: the standard lowercase roman numeral of `n` (claim C6 asserts
the hard-coded table renders `1..20` as roman numerals). -/
def romanNumeral (n : Nat) : String := romanGo n n

/-- Spec-side: the markers claim C6 asserts for the `alpha` style at
indices 1–26. -/
def alphaMarkersSpec : List String :=
  ["a.", "b.", "c.", "d.", "e.", "f.", "g.", "h.", "i.", "j.", "k.", "l.", "m.",
   "n.", "o.", "p.", "q.", "r.", "s.", "t.", "u.", "v.", "w.", "x.", "y.", "z."]

/-- Spec-side (claim C9 / §4.3): one author of the IEEE/Vancouver/Nature
family — surname, a space, and the concatenated initials of the preceding
tokens, no punctuation; single-token names pass through unchanged. -/
def specIeeeName (au : String) : String :=
  let parts := pyWords au
  if parts.length ≤ 1 then au
  else parts.getLastD "" ++ " " ++ pyJoin "" (parts.dropLast.map (pyTake · 1))

/-- Spec-side (claim C9): the full IEEE/Vancouver/Nature author rendering —
render each author, cap at 6, and when the parsed list exceeds 6 join the
first 6 renderings with `", "` and append `", et al."`. -/
def specIeeeAuthors (a : String) : String :=
  let authors := authorsList a
  let rendered := (authors.take 6).map specIeeeName
  if 6 < authors.length then pyJoin ", " rendered ++ ", et al."
  else pyJoin ", " rendered

/-- Spec-side (claim C10): the formatting stage as a plain one-result-per-
entry monadic map, with no filtering. -/
def specOnePerEntry (style : String) : List Entry → Except Unit (List String)
  | [] => .ok []
  | e :: rest => do
    let r ← formatEntryPythonE e style
    let rs ← specOnePerEntry style rest
    pure (r :: rs)

/-! ## Concrete data used by counterexamples and witnesses -/

/-- A BibTeX input whose only field, `month`, is outside the eight-field
schema. -/
def bibtexMonthInput : String := "@article\x7bk, month=\x7bjan\x7d\x7d"

/-- An entry with an author field but no year/title, for C2/C3. -/
def entryJane : Entry :=
  ⟨"article", "smith2020",
    [("author", "Jane Smith"), ("year", "2020"), ("title", "A Study")]⟩

/-- An entry with no fields at all. -/
def entryEmptyFields : Entry := ⟨"book", "k", []⟩

/-- An entry whose author field is a bare comma: truthy in Python, but it
normalizes to zero author names. -/
def entryCommaAuthor : Entry := ⟨"article", "k", [("author", ",")]⟩

/-- An entry with no year field. -/
def entryNoYear : Entry := ⟨"article", "a", []⟩

/-- An entry whose year string `"abc"` sorts lexicographically after
`"9999"`. -/
def entryYearAbc : Entry := ⟨"article", "b", [("year", "abc")]⟩

/-- An entry with an ordinary four-digit year. -/
def entryYear2020 : Entry := ⟨"article", "c", [("year", "2020")]⟩

/-- Ten one-word references, the first long enough to wrap. -/
def refsTen : List String :=
  ["aaaaaaa abcd efg", "b", "b", "b", "b", "b", "b", "b", "b", "b"]

/-- A small three-line RIS record. -/
def risSampleInput : String := "TY  - JOUR\nAU  - Jane Smith\nTI  - A Study"

/-- A small three-line EndNote record. -/
def endnoteSampleInput : String := "%0 Journal Article\n%A Jane Smith\n%T A Study"

/-- A single CSL-JSON object bearing only a title. -/
def jsonSampleInput : Json := Json.obj [("title", Json.str "Solo")]

/-! # Theorems -/

/-! ## Helper lemmas -/


theorem pyJoin_append (sep : String) : ∀ (xs ys : List String), xs ≠ [] → ys ≠ [] →
    pyJoin sep (xs ++ ys) = pyJoin sep xs ++ sep ++ pyJoin sep ys
  | [], _, hx, _ => absurd rfl hx
  | [_], [], _, hy => absurd rfl hy
  | [a], b :: u, _, _ => by
    simp [pyJoin, String.append_assoc]
  | a :: b :: t, ys, _, hy => by
    have ih := pyJoin_append sep (b :: t) ys (by simp) hy
    simp only [List.cons_append] at ih ⊢
    calc pyJoin sep (a :: (b :: (t ++ ys)))
        = a ++ sep ++ pyJoin sep (b :: (t ++ ys)) := by simp [pyJoin]
      _ = a ++ sep ++ (pyJoin sep (b :: t) ++ sep ++ pyJoin sep ys) := by rw [ih]
      _ = (a ++ sep ++ pyJoin sep (b :: t)) ++ sep ++ pyJoin sep ys := by
          simp [String.append_assoc]
      _ = pyJoin sep (a :: b :: t) ++ sep ++ pyJoin sep ys := by simp [pyJoin]

/-- The length of a space-join: sum of the part lengths plus the separators. -/
theorem pyJoin_space_length (xs : List String) (hx : xs ≠ []) :
    (pyJoin " " xs).length + 1 = (xs.map String.length).sum + xs.length := by
  induction xs with
  | nil => cases hx rfl
  | cons a t ih =>
    cases t with
    | nil => simp [pyJoin]
    | cons b u =>
      have h := ih (by simp)
      have hsp : (" " : String).length = 1 := rfl
      simp only [pyJoin, List.map_cons, List.sum_cons, String.length_append,
        List.length_cons, hsp] at h ⊢
      omega

theorem pyJoin_pos_of_mem (xs : List String) (p : String) (hmem : p ∈ xs) (hp : p ≠ "") :
    pyJoin " " xs ≠ "" := by
  have hx : xs ≠ [] := by rintro rfl; simp at hmem
  have h := pyJoin_space_length xs hx
  have hplen : 0 < p.length := by
    rcases Nat.eq_zero_or_pos p.length with h0 | h0
    · exact absurd (String.ext (List.length_eq_zero.mp h0)) hp
    · exact h0
  have hsum : p.length ≤ (xs.map String.length).sum :=
    List.le_sum_of_mem (List.mem_map_of_mem String.length hmem)
  have hxl : 1 ≤ xs.length := List.length_pos.mpr hx
  intro hcon
  rw [hcon] at h
  simp only [String.length] at h
  simp at h
  omega

theorem dictKeys_dictSet_mem : ∀ (fs : List (String × String)) (k v a : String),
    a ∈ dictKeys (dictSet fs k v) → a ∈ dictKeys fs ∨ a = k
  | [], k, v, a, ha => by
    simp only [dictSet, dictKeys, List.map_cons, List.map_nil, List.mem_singleton] at ha
    exact Or.inr ha
  | (k', v') :: rest, k, v, a, ha => by
    by_cases hk : k' = k
    · simp only [dictSet, if_pos hk, dictKeys, List.map_cons, List.mem_cons] at ha
      rcases ha with h | h
      · exact Or.inl (by simp [dictKeys, h])
      · exact Or.inl (by simp only [dictKeys, List.map_cons, List.mem_cons]; exact Or.inr h)
    · simp only [dictSet, if_neg hk, dictKeys, List.map_cons, List.mem_cons] at ha
      rcases ha with h | h
      · exact Or.inl (by simp [dictKeys, h])
      · rcases dictKeys_dictSet_mem rest k v a h with h' | h'
        · exact Or.inl (by simp only [dictKeys, List.map_cons, List.mem_cons]; exact Or.inr h')
        · exact Or.inr h'

theorem except_bind_ok {α β : Type} {x : Except Unit α} {f : α → Except Unit β} {b : β}
    (h : (x >>= f) = .ok b) : ∃ a, x = .ok a ∧ f a = .ok b := by
  cases x with
  | error e => simp [Bind.bind, Except.bind] at h
  | ok a => exact ⟨a, rfl, by simpa [Bind.bind, Except.bind] using h⟩

/-! ## Claim C6: numbering markers -/

/-- C6: the numbering marker function satisfies: for alpha style, indices
1–26 yield `"a."`–`"z."` and index 27 yields `"[27]"`; for roman style,
indices 1–20 yield the lowercase roman numerals `"i."`–`"xx."` and any larger
index falls back to `"[n]"`; style `none` yields the empty string; any
unrecognized style id yields `"[n]"`. -/
theorem claim_C6_numbering_marker :
    (∀ i : Fin 26, getNumberingMarker "alpha" (i.val + 1) = alphaMarkersSpec.getD i.val "")
    ∧ getNumberingMarker "alpha" 27 = "[27]"
    ∧ (∀ i : Fin 20, getNumberingMarker "roman" (i.val + 1) = romanNumeral (i.val + 1) ++ ".")
    ∧ (∀ i : Nat, 20 < i → getNumberingMarker "roman" i = "[" ++ toString i ++ "]")
    ∧ (∀ i : Nat, getNumberingMarker "none" i = "")
    ∧ (∀ s : String, s ∉ numberingIds → ∀ i : Nat,
        getNumberingMarker s i = "[" ++ toString i ++ "]") := by
  refine ⟨by decide, by decide, by decide, ?_, ?_, ?_⟩
  · intro i hi
    have hlen : romanNumerals.length = 20 := rfl
    simp only [getNumberingMarker, hlen]
    rw [if_neg (by decide), if_neg (by decide), if_neg (by decide), if_neg (by decide),
      if_neg (by decide), if_neg (by decide), if_neg (by decide), if_neg (by decide),
      if_pos trivial, if_neg (by omega)]
  · intro i
    rfl
  · intro s hs i
    simp only [numberingIds, List.mem_cons, List.not_mem_nil, or_false, not_or] at hs
    obtain ⟨h1, h2, h3, h4, h5, h6, h7, h8, h9, h10⟩ := hs
    simp only [getNumberingMarker, if_neg h1, if_neg h2, if_neg h3, if_neg h4, if_neg h5,
      if_neg h6, if_neg h7, if_neg h8, if_neg h9, if_neg h10]

/-- Witness for C6 at concrete inputs. -/
theorem claim_C6_witness :
    getNumberingMarker "roman" 25 = "[25]" ∧ getNumberingMarker "zzz" 3 = "[3]" :=
  ⟨claim_C6_numbering_marker.2.2.2.1 25 (by omega),
   claim_C6_numbering_marker.2.2.2.2.2 "zzz" (by decide) 3⟩

/-! ## Claim C8: parsers never raise; malformed input yields `[]` -/

/-- C8: every parser is a total function into entry lists (it never raises to
the caller); a raised read / JSON decode (`.error` input) yields `[]`, and
exceptions raised inside a parser body are caught and also yield `[]`
(exhibited for the EndNote `line[1]` IndexError on the record `"%"` and the
JSON `TypeError` on a non-iterable top-level value). -/
theorem claim_C8_parse_errors :
    (∀ u : Unit, parseBibtex (.error u) = []) ∧
    (∀ u : Unit, parseRis (.error u) = []) ∧
    (∀ u : Unit, parseJson (.error u) = []) ∧
    (∀ u : Unit, parseEndnote (.error u) = []) ∧
    parseEndnoteBody "%" = .error () ∧
    parseEndnote (.ok "%") = [] ∧
    parseJsonBody (.num 5) = .error () ∧
    parseJson (.ok (.num 5)) = [] :=
  ⟨fun _ => rfl, fun _ => rfl, fun _ => rfl, fun _ => rfl, rfl, rfl, rfl, rfl⟩


theorem lineMax_self (W : Int) (first : Bool) : lineMax W W first = W := by
  cases first <;> rfl

theorem wrapGo_ne_nil (f s : Int) :
    ∀ (ws curr : List String) (clen : Int) (first : Bool), curr ≠ [] →
      wrapGo f s ws curr clen first ≠ []
  | [], curr, _, _, hcurr => by
    simp only [wrapGo, if_neg hcurr]
    simp
  | w :: ws, curr, clen, first, hcurr => by
    simp only [wrapGo]
    by_cases hfit : clen + (w.length : Int) + (curr.length : Int) ≤ lineMax f s first
    · rw [if_pos hfit]
      exact wrapGo_ne_nil f s ws (curr ++ [w]) _ first (by simp)
    · rw [if_neg hfit, if_neg hcurr]
      simp

theorem wrapGo_join (f s : Int) :
    ∀ (ws curr : List String) (clen : Int) (first : Bool),
      pyJoin " " (wrapGo f s ws curr clen first) = pyJoin " " (curr ++ ws)
  | [], curr, clen, first => by
    cases hc : curr with
    | nil => simp [wrapGo]
    | cons a t => simp [wrapGo, pyJoin]
  | w :: ws, curr, clen, first => by
    simp only [wrapGo]
    by_cases hfit : clen + (w.length : Int) + (curr.length : Int) ≤ lineMax f s first
    · rw [if_pos hfit, wrapGo_join f s ws (curr ++ [w]), List.append_assoc]
      rfl
    · rw [if_neg hfit]
      by_cases hc : curr = []
      · rw [if_pos hc]
        subst hc
        rw [wrapGo_join f s ws [w]]
        rfl
      · rw [if_neg hc]
        have hrest := wrapGo_ne_nil f s ws [w] (w.length : Int) false (by simp)
        calc pyJoin " " (pyJoin " " curr :: wrapGo f s ws [w] (w.length : Int) false)
            = pyJoin " " ([pyJoin " " curr] ++ wrapGo f s ws [w] (w.length : Int) false) := rfl
          _ = pyJoin " " [pyJoin " " curr] ++ " " ++
              pyJoin " " (wrapGo f s ws [w] (w.length : Int) false) :=
            pyJoin_append " " _ _ (by simp) hrest
          _ = pyJoin " " curr ++ " " ++ pyJoin " " ([w] ++ ws) := by
            rw [wrapGo_join f s ws [w]]
            rfl
          _ = pyJoin " " (curr ++ w :: ws) := by
            rw [← pyJoin_append " " curr ([w] ++ ws) hc (by simp)]
            rfl

theorem wrapGo_line_bound (W : Int) (A : List String) :
    ∀ (ws curr : List String) (clen : Int) (first : Bool),
      clen = (((curr.map String.length).sum : Nat) : Int) →
      (∀ x ∈ curr, x ∈ A) → (∀ x ∈ ws, x ∈ A) →
      (curr = [] ∨ ((pyJoin " " curr).length : Int) ≤ W ∨
        (∃ tok, curr = [tok] ∧ ((tok.length : Int) > W))) →
      ∀ l ∈ wrapGo W W ws curr clen first,
        ((l.length : Int) ≤ W ∨ (l ∈ A ∧ (l.length : Int) > W))
  | [], curr, clen, first, hlen, hsub, _, hinv, l, hl => by
    rcases hinv with hc | hle | ⟨tok, ht, htw⟩
    · subst hc; simp [wrapGo] at hl
    · cases hcurr : curr with
      | nil => subst hcurr; simp [wrapGo] at hl
      | cons a u =>
        rw [hcurr] at hl hle
        simp only [wrapGo, if_neg (List.cons_ne_nil a u), List.mem_singleton] at hl
        rw [hl]
        exact Or.inl hle
    · rw [ht] at hl
      simp only [wrapGo, if_neg (List.cons_ne_nil tok []), List.mem_singleton] at hl
      rw [hl]
      refine Or.inr ⟨?_, ?_⟩
      · have htm : tok ∈ A := hsub tok (by rw [ht]; simp)
        simpa [pyJoin] using htm
      · simpa [pyJoin] using htw
  | w :: ws, curr, clen, first, hlen, hsub, hws, hinv, l, hl => by
    have hwA : w ∈ A := hws w (by simp)
    have hwsA : ∀ x ∈ ws, x ∈ A := fun x hx => hws x (by simp [hx])
    simp only [wrapGo, lineMax_self] at hl
    by_cases hfit : clen + (w.length : Int) + (curr.length : Int) ≤ W
    · rw [if_pos hfit] at hl
      refine wrapGo_line_bound W A ws (curr ++ [w]) _ first ?_ ?_ hwsA ?_ l hl
      · rw [hlen]
        simp only [List.map_append, List.sum_append, List.map_cons, List.sum_cons,
          List.map_nil, List.sum_nil]
        omega
      · intro x hx
        rcases List.mem_append.mp hx with h | h
        · exact hsub x h
        · simp at h; subst h; exact hwA
      · right; left
        have hne : curr ++ [w] ≠ [] := by simp
        have hL := pyJoin_space_length (curr ++ [w]) hne
        rw [hlen] at hfit
        simp only [List.map_append, List.sum_append, List.map_cons, List.sum_cons,
          List.map_nil, List.sum_nil, List.length_append, List.length_cons,
          List.length_nil] at hL
        omega
    · rw [if_neg hfit] at hl
      by_cases hc : curr = []
      · rw [if_pos hc] at hl
        refine wrapGo_line_bound W A ws [w] _ first (by simp) ?_ hwsA ?_ l hl
        · intro x hx; simp at hx; subst hx; exact hwA
        · by_cases hwl : ((w.length : Int) ≤ W)
          · right; left; simpa [pyJoin] using hwl
          · right; right; exact ⟨w, rfl, by omega⟩
      · rw [if_neg hc] at hl
        simp only [List.mem_cons] at hl
        rcases hl with hl | hl
        · rw [hl]
          rcases hinv with h | hle | ⟨tok, ht, htw⟩
          · exact absurd h hc
          · exact Or.inl hle
          · rw [ht]
            refine Or.inr ⟨?_, ?_⟩
            · have htm : tok ∈ A := hsub tok (by rw [ht]; simp)
              simpa [pyJoin] using htm
            · simpa [pyJoin] using htw
        · refine wrapGo_line_bound W A ws [w] _ false (by simp) ?_ hwsA ?_ l hl
          · intro x hx; simp at hx; subst hx; exact hwA
          · by_cases hwl : ((w.length : Int) ≤ W)
            · right; left; simpa [pyJoin] using hwl
            · right; right; exact ⟨w, rfl, by omega⟩

/-- C5: with zero indents, the wrapped lines rejoined with single spaces equal
the whitespace-normalized input (`" ".join(text.split())`), and no produced
line exceeds `W` characters except a line consisting of a single input token
that itself exceeds `W`. -/
theorem claim_C5_wrap_reconstruction (text : String) (W : Int) :
    pyJoin " " (wrapText text W 0 0) = pyJoin " " (pyWords text) ∧
    ∀ l ∈ wrapText text W 0 0,
      ((l.length : Int) ≤ W ∨ (l ∈ pyWords text ∧ (l.length : Int) > W)) := by
  constructor
  · simp only [wrapText, sub_zero]
    rw [wrapGo_join]
    rfl
  · intro l hl
    simp only [wrapText, sub_zero] at hl
    exact wrapGo_line_bound W (pyWords text) (pyWords text) [] 0 true rfl
      (by simp) (fun x hx => hx) (Or.inl rfl) l hl

/-- Witness for C5 at a concrete input: wrapping `"aa bb ccccc"` at width 4
puts the oversized single token `"ccccc"` on its own line. -/
theorem claim_C5_witness :
    (("ccccc" : String).length : Int) ≤ 4 ∨
      ("ccccc" ∈ pyWords "aa bb ccccc" ∧ (("ccccc" : String).length : Int) > 4) :=
  (claim_C5_wrap_reconstruction "aa bb ccccc" 4).2 "ccccc" (by decide)

/-! ## Claim C7: sorting -/

theorem charListLe_refl : ∀ l : List Char, charListLe l l = true
  | [] => rfl
  | a :: as => by
    simp only [charListLe, lt_irrefl, if_neg (lt_irrefl a.toNat), if_false]
    exact charListLe_refl as

theorem charListLe_total : ∀ as bs : List Char, (charListLe as bs || charListLe bs as) = true
  | [], _ => by simp [charListLe]
  | _ :: _, [] => by simp [charListLe]
  | a :: as, b :: bs => by
    simp only [charListLe]
    rcases Nat.lt_trichotomy a.toNat b.toNat with h | h | h
    · rw [if_pos h]
      simp
    · rw [if_neg (by omega), if_neg (by omega), if_neg (by omega), if_neg (by omega)]
      exact charListLe_total as bs
    · rw [if_neg (by omega), if_pos h, if_pos h]
      simp

theorem charListLe_trans : ∀ as bs cs : List Char,
    charListLe as bs = true → charListLe bs cs = true → charListLe as cs = true
  | [], _, _, _, _ => rfl
  | _ :: _, [], _, h1, _ => by simp [charListLe] at h1
  | _ :: _, _ :: _, [], _, h2 => by simp [charListLe] at h2
  | a :: as, b :: bs, c :: cs, h1, h2 => by
    simp only [charListLe] at h1 h2 ⊢
    by_cases hab1 : a.toNat < b.toNat
    · by_cases hbc1 : b.toNat < c.toNat
      · rw [if_pos (by omega : a.toNat < c.toNat)]
      · by_cases hbc2 : c.toNat < b.toNat
        · rw [if_neg hbc1, if_pos hbc2] at h2
          simp at h2
        · rw [if_pos (by omega : a.toNat < c.toNat)]
    · by_cases hab2 : b.toNat < a.toNat
      · rw [if_neg hab1, if_pos hab2] at h1
        simp at h1
      · by_cases hbc1 : b.toNat < c.toNat
        · rw [if_pos (by omega : a.toNat < c.toNat)]
        · by_cases hbc2 : c.toNat < b.toNat
          · rw [if_neg hbc1, if_pos hbc2] at h2
            simp at h2
          · rw [if_neg hab1, if_neg hab2] at h1
            rw [if_neg hbc1, if_neg hbc2] at h2
            rw [if_neg (by omega : ¬ a.toNat < c.toNat),
              if_neg (by omega : ¬ c.toNat < a.toNat)]
            exact charListLe_trans as bs cs h1 h2

theorem entryKeyLe_trans (f : Entry → String) (a b c : Entry)
    (h1 : pyStrLe (f a) (f b) = true) (h2 : pyStrLe (f b) (f c) = true) :
    pyStrLe (f a) (f c) = true :=
  charListLe_trans _ _ _ h1 h2

theorem entryKeyLe_total (f : Entry → String) (a b : Entry) :
    (pyStrLe (f a) (f b) || pyStrLe (f b) (f a)) = true :=
  charListLe_total _ _

/-- The stable sort keeps the relative order of entries with equal keys:
for every key value, filtering the sorted list gives the filtered input. -/
theorem mergeSort_filter_key (f : Entry → String) (entries : List Entry) (k : String) :
    ((entries.mergeSort fun a b => pyStrLe (f a) (f b)).filter fun e => f e == k)
      = entries.filter fun e => f e == k := by
  have hsub : List.Sublist (entries.filter fun e => f e == k) entries :=
    List.filter_sublist _
  have hpair : (entries.filter fun e => f e == k).Pairwise
      fun a b => pyStrLe (f a) (f b) := by
    apply List.pairwise_of_forall_mem_list
    intro a ha b hb
    have hak := (List.mem_filter.mp ha).2
    have hbk := (List.mem_filter.mp hb).2
    simp only [beq_iff_eq] at hak hbk
    rw [hak, hbk]
    exact charListLe_refl _
  have hst := List.sublist_mergeSort (entryKeyLe_trans f) (entryKeyLe_total f) hpair hsub
  have hperm : List.Perm
      ((entries.mergeSort fun a b => pyStrLe (f a) (f b)).filter fun e => f e == k)
      (entries.filter fun e => f e == k) :=
    (List.mergeSort_perm entries _).filter _
  have hsub2 : List.Sublist (entries.filter fun e => f e == k)
      ((entries.mergeSort fun a b => pyStrLe (f a) (f b)).filter fun e => f e == k) := by
    have h2 := hst.filter fun e => f e == k
    have heq : (List.filter (fun e => f e == k) (List.filter (fun e => f e == k) entries))
        = List.filter (fun e => f e == k) entries := by
      rw [List.filter_filter]
      apply List.filter_congr
      intro e _
      cases h : (f e == k) <;> simp [h]
    rwa [heq] at h2
  exact (hsub2.eq_of_length hperm.length_eq.symm).symm

/-- `sortEntries "year"` unfolded. -/
theorem sortEntries_year (entries : List Entry) :
    sortEntries "year" entries
      = entries.mergeSort fun a b => pyStrLe (yearSortKey a) (yearSortKey b) := by
  simp [sortEntries]

/-- C7 (amended): `sort(entries, "appearance")` is the identity; every order
is stable for entries with equal sort keys; and under the `year` order every
entry with a missing year (defaulted key `"9999"`) comes after every entry
whose year string is lexicographically smaller than `"9999"` — but not
necessarily after entries whose year string compares ≥ `"9999"`. -/
theorem claim_C7_sort_order :
    (∀ entries : List Entry, sortEntries "appearance" entries = entries) ∧
    (∀ (order : String) (entries : List Entry) (k : String),
      ((sortEntries order entries).filter fun e => sortKeyFn order e == k)
        = entries.filter fun e => sortKeyFn order e == k) ∧
    (∀ (entries : List Entry) (i j : Nat) (hi : i < (sortEntries "year" entries).length)
        (hj : j < (sortEntries "year" entries).length),
      dictGet ((sortEntries "year" entries).get ⟨i, hi⟩).fields "year" = none →
      ∀ y : String,
        dictGet ((sortEntries "year" entries).get ⟨j, hj⟩).fields "year" = some y →
        pyStrLe "9999" y = false → j < i) := by
  refine ⟨fun entries => rfl, ?_, ?_⟩
  · intro order entries k
    by_cases h1 : order = "author"
    · subst h1
      simp only [sortEntries, sortKeyFn, if_pos rfl]
      exact mergeSort_filter_key authorSortKey entries k
    · by_cases h2 : order = "year"
      · subst h2
        simp only [sortEntries, sortKeyFn, if_neg (by decide : ("year" : String) = "author" → False),
          if_pos rfl]
        exact mergeSort_filter_key yearSortKey entries k
      · by_cases h3 : order = "title"
        · subst h3
          simp only [sortEntries, sortKeyFn,
            if_neg (by decide : ("title" : String) = "author" → False),
            if_neg (by decide : ("title" : String) = "year" → False), if_pos rfl]
          exact mergeSort_filter_key titleSortKey entries k
        · simp only [sortEntries, sortKeyFn, if_neg h1, if_neg h2, if_neg h3]
  · intro entries i j hi hj hnone y hsome hy
    have hsorted : (sortEntries "year" entries).Pairwise
        fun a b => pyStrLe (yearSortKey a) (yearSortKey b) := by
      rw [sortEntries_year]
      exact List.sorted_mergeSort (entryKeyLe_trans yearSortKey)
        (entryKeyLe_total yearSortKey) entries
    by_contra hne
    push_neg at hne
    rcases Nat.lt_or_ge i j with hij | hij
    · have hrel := (List.pairwise_iff_get.mp hsorted) ⟨i, hi⟩ ⟨j, hj⟩ hij
      simp only [yearSortKey, dictGetD, hnone, hsome, Option.getD_some,
        Option.getD_none] at hrel
      rw [hrel] at hy
      cases hy
    · have hij' : i = j := le_antisymm hne hij
      subst hij'
      rw [hnone] at hsome
      cases hsome

/-- C7 counterexample: an entry with a *missing* year precedes an entry whose
year string `"abc"` compares above the `"9999"` default, refuting the claim
that missing-year entries are placed after all entries that have a year. -/
theorem claim_C7_counterexample :
    sortEntries "year" [entryNoYear, entryYearAbc] = [entryNoYear, entryYearAbc] ∧
    dictGet entryNoYear.fields "year" = none ∧
    dictGet entryYearAbc.fields "year" = some "abc" := by
  refine ⟨?_, rfl, rfl⟩
  rw [sortEntries_year]
  apply List.mergeSort_of_sorted
  decide

/-- Witness for C7 at a concrete input: in the sorted list
`[entryYear2020, entryNoYear]` the missing-year entry sits at position 1,
after the 2020 entry at position 0. -/
theorem claim_C7_witness : (0 : Nat) < 1 := by
  have hout : sortEntries "year" [entryYear2020, entryNoYear]
      = [entryYear2020, entryNoYear] := by
    rw [sortEntries_year]
    apply List.mergeSort_of_sorted
    decide
  have hlen : (sortEntries "year" [entryYear2020, entryNoYear]).length = 2 := by
    rw [hout]
    rfl
  refine claim_C7_sort_order.2.2 [entryYear2020, entryNoYear] 1 0
    (by omega) (by omega) ?_ "2020" ?_ (by decide)
  · rw [List.get_of_eq hout]
    rfl
  · rw [List.get_of_eq hout]
    rfl

/-! ## Claim C9: IEEE/Vancouver/Nature author rendering -/

theorem ieeeOneAuthor_eq_spec (au : String) : ieeeOneAuthor au = specIeeeName au := by
  simp only [ieeeOneAuthor, specIeeeName]
  by_cases h : 1 < (pyWords au).length
  · rw [if_pos h, if_neg (by omega)]
  · rw [if_neg h, if_pos (by omega)]

/-- C9: for the ieee, vancouver and nature styles, `format_authors` computes
exactly the spec-side rendering: each author as surname + space + concatenated
initials of the preceding tokens (single tokens unchanged), capped at 6
authors, with `", et al."` appended when the parsed list exceeds 6. -/
theorem claim_C9_ieee_author_rendering (a : String) :
    formatAuthorsE a "ieee" = .ok (specIeeeAuthors a) ∧
    formatAuthorsE a "vancouver" = .ok (specIeeeAuthors a) ∧
    formatAuthorsE a "nature" = .ok (specIeeeAuthors a) := by
  have hfun : ieeeOneAuthor = specIeeeName := funext ieeeOneAuthor_eq_spec
  refine ⟨?_, ?_, ?_⟩ <;>
  · by_cases ha : a = ""
    · subst ha; rfl
    · simp only [formatAuthorsE, if_neg ha, specIeeeAuthors]
      rw [if_neg (by decide), if_neg (by decide), if_pos (by decide), hfun]
      split <;> rfl

/-! ## Claim C3: unknown style ids -/

/-- C3 (amended): a style id outside the ten supported identifiers reaches
the `format_authors` fallback (plain `", "` join of the split author list,
*not* the APA rendering) while the composer dispatch falls back to the APA
composer; the end-to-end outputs of an unknown style and `"apa"` therefore
agree whenever the author field is absent, but not in general. -/
theorem claim_C3_unknown_style :
    (∀ s : String, s ∉ styleIds → ∀ a : String,
      formatAuthorsE a s = .ok (pyJoin ", " (authorsList a))) ∧
    (∀ s : String, s ∉ styleIds → ∀ (t k : String) (fields : List (String × String)),
      dictGet fields "author" = none →
      formatEntryPythonE ⟨t, k, fields⟩ s = formatEntryPythonE ⟨t, k, fields⟩ "apa") := by
  have hids : ∀ s : String, s ∉ styleIds →
      (¬ s ∈ (["apa", "apa7", "chicago", "harvard"] : List String)) ∧ s ≠ "mla" ∧
      (¬ s ∈ (["ieee", "vancouver", "nature"] : List String)) ∧ s ≠ "apa" ∧ s ≠ "apa7" ∧
      s ≠ "chicago" ∧ s ≠ "harvard" ∧ s ≠ "ieee" ∧ s ≠ "vancouver" ∧ s ≠ "ama" ∧
      s ≠ "acs" ∧ s ≠ "nature" := by
    intro s hs
    simp only [styleIds, List.mem_cons, List.not_mem_nil, or_false, not_or] at hs
    obtain ⟨h1, h2, h3, h4, h5, h6, h7, h8, h9, h10⟩ := hs
    refine ⟨?_, h3, ?_, h1, h2, h4, h5, h6, h7, h8, h9, h10⟩
    · simp only [List.mem_cons, List.not_mem_nil, or_false, not_or]
      exact ⟨h1, h2, h4, h5⟩
    · simp only [List.mem_cons, List.not_mem_nil, or_false, not_or]
      exact ⟨h6, h7, h10⟩
  have hfb : ∀ s : String, s ∉ styleIds → ∀ a : String,
      formatAuthorsE a s = .ok (pyJoin ", " (authorsList a)) := by
    intro s hs a
    obtain ⟨ha1, ha2, ha3, _⟩ := hids s hs
    by_cases ha : a = ""
    · subst ha; rfl
    · simp only [formatAuthorsE, if_neg ha]
      rw [if_neg ha1, if_neg ha2, if_neg ha3]
  refine ⟨hfb, ?_⟩
  intro s hs t k fields hauth
  obtain ⟨_, _, _, h4, h5, h6, h7, h8, h9, h10, h11, h12⟩ := hids s hs
  have ha : dictGetD fields "author" "" = "" := by simp [dictGetD, hauth]
  have hmla : s ≠ "mla" := (hids s hs).2.1
  simp only [formatEntryPythonE, ha]
  have hfa : ∀ st : String, formatAuthorsE "" st = .ok "" := fun st => rfl
  rw [hfa s, hfa "apa"]
  simp only [Bind.bind, Except.bind]
  rw [if_neg (by simp [h4, h5]), if_neg hmla, if_neg h6, if_neg h7, if_neg h8, if_neg h9,
    if_neg h10, if_neg h11, if_neg h12]
  simp

/-- C3 counterexample: with author `"Jane Smith"`, the unknown style `"foo"`
renders the author with the plain-join fallback while `"apa"` renders
`"Smith, J."` — the end-to-end outputs differ. -/
theorem claim_C3_counterexample :
    formatEntryPythonE entryJane "foo" = .ok "Jane Smith (2020). A Study." ∧
    formatEntryPythonE entryJane "apa" = .ok "Smith, J. (2020). A Study." ∧
    ("Jane Smith (2020). A Study." : String) ≠ "Smith, J. (2020). A Study." :=
  ⟨rfl, rfl, by decide⟩

/-- Witness for C3 at a concrete input: an author-less entry formats the same
under the unknown style `"foo"` and under `"apa"`. -/
theorem claim_C3_witness :
    formatEntryPythonE ⟨"book", "k", []⟩ "foo" = formatEntryPythonE ⟨"book", "k", []⟩ "apa" :=
  claim_C3_unknown_style.2 "foo" (by decide) "book" "k" [] rfl

/-! ## Claim C2: missing-field handling in the composers -/

/-- `format_authors` raises exactly in the MLA branch with a truthy author
string that normalizes to zero author names (`authors[0]` on `[]`). -/
theorem formatAuthorsE_error_iff (a s : String) :
    formatAuthorsE a s = .error () ↔ (s = "mla" ∧ a ≠ "" ∧ authorsList a = []) := by
  by_cases ha : a = ""
  · subst ha
    simp [formatAuthorsE]
  · simp only [formatAuthorsE, if_neg ha]
    by_cases h1 : s ∈ (["apa", "apa7", "chicago", "harvard"] : List String)
    · rw [if_pos h1]
      constructor
      · intro h; cases h
      · rintro ⟨hm, -, -⟩
        subst hm
        simp at h1
    · rw [if_neg h1]
      by_cases h2 : s = "mla"
      · subst h2
        rw [if_pos rfl]
        cases hal : authorsList a with
        | nil => simp [ha]
        | cons x xs => simp
      · rw [if_neg h2]
        by_cases h3 : s ∈ (["ieee", "vancouver", "nature"] : List String)
        · rw [if_pos h3]
          constructor
          · intro h
            split at h <;> cases h
          · rintro ⟨hm, -, -⟩
            exact absurd hm h2
        · rw [if_neg h3]
          constructor
          · intro h; cases h
          · rintro ⟨hm, -, -⟩
            exact absurd hm h2

theorem formatAuthorsE_apa_ok (a : String) : ∃ au, formatAuthorsE a "apa" = .ok au := by
  by_cases ha : a = ""
  · exact ⟨"", by subst ha; rfl⟩
  · refine ⟨apaJoinAuthors ((authorsList a).map apaOneAuthor), ?_⟩
    simp only [formatAuthorsE, if_neg ha]
    rw [if_pos (by decide)]

theorem pyJoin_cons_tail (p : String) (rest : List String) :
    ∃ tail, pyJoin " " (p :: rest) = p ++ tail := by
  cases rest with
  | nil => exact ⟨"", by simp [pyJoin]⟩
  | cons b t =>
    exact ⟨" " ++ pyJoin " " (b :: t), by simp [pyJoin, String.append_assoc]⟩

theorem dictGet_append_ne : ∀ (fields : List (String × String)) (k k₀ v₀ : String),
    k ≠ k₀ → dictGet (fields ++ [(k₀, v₀)]) k = dictGet fields k
  | [], k, k₀, v₀, h => by
    simp only [List.nil_append, dictGet]
    rw [if_neg (fun he => h he.symm)]
  | (k', v') :: rest, k, k₀, v₀, h => by
    simp only [List.cons_append, dictGet]
    by_cases hk : k' = k
    · rw [if_pos hk, if_pos hk]
    · rw [if_neg hk, if_neg hk]
      exact dictGet_append_ne rest k k₀ v₀ h

theorem dictGet_append_self : ∀ (fields : List (String × String)) (k₀ v₀ : String),
    dictGet fields k₀ = none → dictGet (fields ++ [(k₀, v₀)]) k₀ = some v₀
  | [], k₀, v₀, _ => by simp [dictGet]
  | (k', v') :: rest, k₀, v₀, h => by
    simp only [dictGet] at h
    simp only [List.cons_append, dictGet]
    by_cases hk : k' = k₀
    · rw [if_pos hk] at h
      cases h
    · rw [if_neg hk] at h ⊢
      exact dictGet_append_self rest k₀ v₀ h

theorem formatEntryPythonE_ok_of_authors (e : Entry) (s au : String)
    (hfa : formatAuthorsE (dictGetD e.fields "author" "") s = .ok au) :
    ∃ res, formatEntryPythonE e s = .ok res := by
  simp only [formatEntryPythonE, hfa, Bind.bind, Except.bind]
  repeat' split
  all_goals exact ⟨_, rfl⟩

theorem formatApa_append_pub (t au y ti : String) (fields : List (String × String)) (p : String)
    (ht : t ≠ "article") (hpub : dictGet fields "publisher" = none) :
    formatApa t au y ti (fields ++ [("publisher", p)])
      = formatApa t au y ti fields ++ " " ++ (p ++ ".") := by
  simp only [formatApa]
  rw [if_neg ht, if_neg ht, dictGet_append_self fields "publisher" p hpub, hpub]
  generalize (if au ≠ "" then [au ++ " (" ++ y ++ ")."] else ["(" ++ y ++ ")."]) = hd
  show pyJoin " " (hd ++ [ti ++ "."] ++ [p ++ "."])
      = pyJoin " " (hd ++ [ti ++ "."] ++ []) ++ " " ++ (p ++ ".")
  have hne : hd ++ [ti ++ "."] ≠ [] := by simp
  rw [List.append_nil, pyJoin_append " " (hd ++ [ti ++ "."]) [p ++ "."] hne (by simp)]
  rfl

theorem pyJoin_cons_cons (x b : String) (t : List String) :
    pyJoin " " (x :: b :: t) = x ++ " " ++ pyJoin " " (b :: t) := rfl

theorem append_merge (au x y z : String) (h : x ++ y = z) :
    au ++ x ++ y = au ++ z := by
  rw [String.append_assoc, h]

theorem formatVancouver_year_inv (au ti y1 y2 : String)
    (fields : List (String × String)) (hy : dictGet fields "year" = none)
    (hj : (dictGet fields "journal").isSome = true) :
    formatVancouver "article" au y1 ti fields
      = formatVancouver "article" au y2 ti fields := by
  simp [formatVancouver, hy, hj]

theorem formatAma_year_inv (au ti y1 y2 : String)
    (fields : List (String × String)) (hy : dictGet fields "year" = none)
    (hj : (dictGet fields "journal").isSome = true) :
    formatAma "article" au y1 ti fields = formatAma "article" au y2 ti fields := by
  simp [formatAma, hy, hj]

theorem formatAcs_year_inv (au ti y1 y2 : String)
    (fields : List (String × String)) (hy : dictGet fields "year" = none)
    (hj : (dictGet fields "journal").isSome = true) :
    formatAcs "article" au y1 ti fields = formatAcs "article" au y2 ti fields := by
  simp [formatAcs, hy, hj]

theorem formatMla_year_inv (t au ti y1 y2 : String)
    (fields : List (String × String))
    (hna : ¬(t = "article" ∧ (dictGet fields "journal").isSome = true))
    (hp : dictGet fields "publisher" = none) :
    formatMla t au y1 ti fields = formatMla t au y2 ti fields := by
  simp only [formatMla, if_neg hna, hp]

theorem formatApa_author_head (t au y ti : String)
    (fields : List (String × String)) (hau : au ≠ "") :
    formatApa t au y ti fields = au ++ " " ++ formatApa t "" y ti fields := by
  simp only [formatApa]
  rw [if_pos hau, if_neg (show ¬(("" : String) ≠ "") from fun h => h rfl)]
  have hhead : au ++ " (" ++ y ++ ")." = (au ++ " ") ++ ("(" ++ y ++ ").") := by
    rw [show (" (" : String) = " " ++ "(" from rfl]
    simp only [String.append_assoc]
  rw [hhead]
  by_cases hc : t = "article"
  · rw [if_pos hc, if_pos hc]
    simp only [List.cons_append, List.nil_append]
    rw [pyJoin_cons_cons, pyJoin_cons_cons]
    simp only [String.append_assoc]
  · rw [if_neg hc, if_neg hc]
    simp only [List.cons_append, List.nil_append]
    rw [pyJoin_cons_cons, pyJoin_cons_cons]
    simp only [String.append_assoc]

theorem formatMla_author_head (t au y ti : String)
    (fields : List (String × String)) (hau : au ≠ "") :
    formatMla t au y ti fields = au ++ ". " ++ formatMla t "" y ti fields := by
  simp only [formatMla]
  rw [if_pos hau, if_neg (show ¬(("" : String) ≠ "") from fun h => h rfl)]
  by_cases hc : t = "article" ∧ (dictGet fields "journal").isSome = true
  · rw [if_pos hc, if_pos hc]
    simp only [List.cons_append, List.nil_append]
    rw [pyJoin_cons_cons, append_merge au "." " " ". " rfl]
  · rw [if_neg hc, if_neg hc]
    simp only [List.cons_append, List.nil_append]
    rw [pyJoin_cons_cons, append_merge au "." " " ". " rfl]

theorem formatChicago_author_head (t au y ti : String)
    (fields : List (String × String)) (hau : au ≠ "") :
    formatChicago t au y ti fields = au ++ ". " ++ formatChicago t "" y ti fields := by
  simp only [formatChicago]
  rw [if_pos hau, if_neg (show ¬(("" : String) ≠ "") from fun h => h rfl)]
  by_cases hc : t = "article" ∧ (dictGet fields "journal").isSome = true
  · rw [if_pos hc, if_pos hc]
    simp only [List.cons_append, List.nil_append]
    rw [pyJoin_cons_cons, append_merge au "." " " ". " rfl]
  · rw [if_neg hc, if_neg hc]
    simp only [List.cons_append, List.nil_append]
    rw [pyJoin_cons_cons, append_merge au "." " " ". " rfl]

theorem formatIeee_author_head (t au y ti : String)
    (fields : List (String × String)) (hau : au ≠ "") :
    formatIeee t au y ti fields = au ++ ", " ++ formatIeee t "" y ti fields := by
  simp only [formatIeee]
  rw [if_pos hau, if_neg (show ¬(("" : String) ≠ "") from fun h => h rfl)]
  by_cases hc : t = "article" ∧ (dictGet fields "journal").isSome = true
  · rw [if_pos hc, if_pos hc]
    simp only [List.cons_append, List.nil_append]
    rw [pyJoin_cons_cons, append_merge au "," " " ", " rfl]
  · rw [if_neg hc, if_neg hc]
    simp only [List.cons_append, List.nil_append]
    rw [pyJoin_cons_cons, append_merge au "," " " ", " rfl]

theorem formatVancouver_author_head (t au y ti : String)
    (fields : List (String × String)) (hau : au ≠ "") :
    formatVancouver t au y ti fields = au ++ ". " ++ formatVancouver t "" y ti fields := by
  simp only [formatVancouver]
  rw [if_pos hau, if_neg (show ¬(("" : String) ≠ "") from fun h => h rfl)]
  by_cases hc : t = "article" ∧ (dictGet fields "journal").isSome = true
  · rw [if_pos hc, if_pos hc]
    simp only [List.cons_append, List.nil_append]
    rw [pyJoin_cons_cons, append_merge au "." " " ". " rfl]
  · rw [if_neg hc, if_neg hc]
    simp only [List.cons_append, List.nil_append]
    rw [pyJoin_cons_cons, append_merge au "." " " ". " rfl]

theorem formatAma_author_head (t au y ti : String)
    (fields : List (String × String)) (hau : au ≠ "") :
    formatAma t au y ti fields = au ++ ". " ++ formatAma t "" y ti fields := by
  simp only [formatAma]
  rw [if_pos hau, if_neg (show ¬(("" : String) ≠ "") from fun h => h rfl)]
  by_cases hc : t = "article" ∧ (dictGet fields "journal").isSome = true
  · rw [if_pos hc, if_pos hc]
    simp only [List.cons_append, List.nil_append]
    rw [pyJoin_cons_cons, append_merge au "." " " ". " rfl]
  · rw [if_neg hc, if_neg hc]
    simp only [List.cons_append, List.nil_append]
    rw [pyJoin_cons_cons, append_merge au "." " " ". " rfl]

theorem formatAcs_author_head (t au y ti : String)
    (fields : List (String × String)) (hau : au ≠ "") :
    formatAcs t au y ti fields = au ++ ". " ++ formatAcs t "" y ti fields := by
  simp only [formatAcs]
  rw [if_pos hau, if_neg (show ¬(("" : String) ≠ "") from fun h => h rfl)]
  by_cases hc : t = "article" ∧ (dictGet fields "journal").isSome = true
  · rw [if_pos hc, if_pos hc]
    simp only [List.cons_append, List.nil_append]
    rw [pyJoin_cons_cons, append_merge au "." " " ". " rfl]
  · rw [if_neg hc, if_neg hc]
    simp only [List.cons_append, List.nil_append]
    rw [pyJoin_cons_cons, append_merge au "." " " ". " rfl]

theorem formatNature_author_head (t au y ti : String)
    (fields : List (String × String)) (hau : au ≠ "") :
    formatNature t au y ti fields = au ++ ". " ++ formatNature t "" y ti fields := by
  simp only [formatNature]
  rw [if_pos hau, if_neg (show ¬(("" : String) ≠ "") from fun h => h rfl)]
  by_cases hc : t = "article" ∧ (dictGet fields "journal").isSome = true
  · rw [if_pos hc, if_pos hc]
    simp only [List.cons_append, List.nil_append]
    rw [pyJoin_cons_cons, append_merge au "." " " ". " rfl]
  · rw [if_neg hc, if_neg hc]
    simp only [List.cons_append, List.nil_append]
    rw [pyJoin_cons_cons, append_merge au "." " " ". " rfl]

theorem formatEntryPythonE_vancouver (e : Entry) :
    formatEntryPythonE e "vancouver"
      = (formatAuthorsE (dictGetD e.fields "author" "") "vancouver").map
          (fun au => formatVancouver e.type au (dictGetD e.fields "year" "n.d.")
            (dictGetD e.fields "title" "") e.fields) := by
  cases hfa : formatAuthorsE (dictGetD e.fields "author" "") "vancouver" with
  | error u =>
    simp only [formatEntryPythonE, hfa, Bind.bind, Except.bind, Except.map]
  | ok au =>
    simp only [formatEntryPythonE, hfa, Bind.bind, Except.bind, Except.map]
    simp only [if_true, String.reduceEq, if_false, or_self, or_false, false_or]
    rfl

theorem formatEntryPythonE_ama (e : Entry) :
    formatEntryPythonE e "ama"
      = (formatAuthorsE (dictGetD e.fields "author" "") "ama").map
          (fun au => formatAma e.type au (dictGetD e.fields "year" "n.d.")
            (dictGetD e.fields "title" "") e.fields) := by
  cases hfa : formatAuthorsE (dictGetD e.fields "author" "") "ama" with
  | error u =>
    simp only [formatEntryPythonE, hfa, Bind.bind, Except.bind, Except.map]
  | ok au =>
    simp only [formatEntryPythonE, hfa, Bind.bind, Except.bind, Except.map]
    simp only [if_true, String.reduceEq, if_false, or_self, or_false, false_or]
    rfl

theorem formatEntryPythonE_acs (e : Entry) :
    formatEntryPythonE e "acs"
      = (formatAuthorsE (dictGetD e.fields "author" "") "acs").map
          (fun au => formatAcs e.type au (dictGetD e.fields "year" "n.d.")
            (dictGetD e.fields "title" "") e.fields) := by
  cases hfa : formatAuthorsE (dictGetD e.fields "author" "") "acs" with
  | error u =>
    simp only [formatEntryPythonE, hfa, Bind.bind, Except.bind, Except.map]
  | ok au =>
    simp only [formatEntryPythonE, hfa, Bind.bind, Except.bind, Except.map]
    simp only [if_true, String.reduceEq, if_false, or_self, or_false, false_or]
    rfl

theorem formatEntryPythonE_mla (e : Entry) :
    formatEntryPythonE e "mla"
      = (formatAuthorsE (dictGetD e.fields "author" "") "mla").map
          (fun au => formatMla e.type au (dictGetD e.fields "year" "n.d.")
            (dictGetD e.fields "title" "") e.fields) := by
  cases hfa : formatAuthorsE (dictGetD e.fields "author" "") "mla" with
  | error u =>
    simp only [formatEntryPythonE, hfa, Bind.bind, Except.bind, Except.map]
  | ok au =>
    simp only [formatEntryPythonE, hfa, Bind.bind, Except.bind, Except.map]
    simp only [if_true, String.reduceEq, if_false, or_self, or_false, false_or]
    rfl

/-- C2 (amended): the handling of missing fields is style-dependent, it can
insert placeholder text, and in one case it throws.  (1) Under apa a missing
year is rendered via the substitute string `"n.d."`, which appears in every
apa output.  (2) Under vancouver, ama and acs, an article entry bearing a
journal renders no year clause at all when the year is absent: the output
equals the composer applied at an *arbitrary* year argument `y`, so the
`"n.d."` default passed by `format_entry_python` never reaches it.  (3) The
same holds for mla outside its journal-article branch when no publisher is
present.  (4) A missing author is omitted: `format_authors` maps the empty
default to `""` for every style, and (5) each of the eight composers with
empty authors drops exactly the author clause and its separator, leaving the
rest of the output unchanged.  (6) A membership-tested clause is omitted
entirely when its field is absent, exhibited for the apa publisher clause:
adding a publisher to an entry lacking one only appends its clause.  (7)
`format_entry_python` throws in exactly one case — mla style with a truthy
author field that normalizes to zero author names. -/
theorem claim_C2_missing_fields :
    (∀ (t k : String) (fields : List (String × String)),
      dictGet fields "year" = none → ∀ res : String,
      formatEntryPythonE ⟨t, k, fields⟩ "apa" = .ok res →
      ∃ pre post, res = pre ++ "n.d." ++ post) ∧
    (∀ (k y : String) (fields : List (String × String)),
      dictGet fields "year" = none → (dictGet fields "journal").isSome = true →
      formatEntryPythonE ⟨"article", k, fields⟩ "vancouver"
        = (formatAuthorsE (dictGetD fields "author" "") "vancouver").map
            (fun au => formatVancouver "article" au y (dictGetD fields "title" "") fields) ∧
      formatEntryPythonE ⟨"article", k, fields⟩ "ama"
        = (formatAuthorsE (dictGetD fields "author" "") "ama").map
            (fun au => formatAma "article" au y (dictGetD fields "title" "") fields) ∧
      formatEntryPythonE ⟨"article", k, fields⟩ "acs"
        = (formatAuthorsE (dictGetD fields "author" "") "acs").map
            (fun au => formatAcs "article" au y (dictGetD fields "title" "") fields)) ∧
    (∀ (t k y : String) (fields : List (String × String)),
      ¬(t = "article" ∧ (dictGet fields "journal").isSome = true) →
      dictGet fields "publisher" = none →
      formatEntryPythonE ⟨t, k, fields⟩ "mla"
        = (formatAuthorsE (dictGetD fields "author" "") "mla").map
            (fun au => formatMla t au y (dictGetD fields "title" "") fields)) ∧
    (∀ s : String, formatAuthorsE "" s = .ok "") ∧
    (∀ (t au y ti : String) (fields : List (String × String)), au ≠ "" →
      formatApa t au y ti fields = au ++ " " ++ formatApa t "" y ti fields ∧
      formatMla t au y ti fields = au ++ ". " ++ formatMla t "" y ti fields ∧
      formatChicago t au y ti fields = au ++ ". " ++ formatChicago t "" y ti fields ∧
      formatIeee t au y ti fields = au ++ ", " ++ formatIeee t "" y ti fields ∧
      formatVancouver t au y ti fields = au ++ ". " ++ formatVancouver t "" y ti fields ∧
      formatAma t au y ti fields = au ++ ". " ++ formatAma t "" y ti fields ∧
      formatAcs t au y ti fields = au ++ ". " ++ formatAcs t "" y ti fields ∧
      formatNature t au y ti fields = au ++ ". " ++ formatNature t "" y ti fields) ∧
    (∀ (t k : String) (fields : List (String × String)) (p : String),
      t ≠ "article" → dictGet fields "publisher" = none →
      formatEntryPythonE ⟨t, k, fields ++ [("publisher", p)]⟩ "apa"
        = (formatEntryPythonE ⟨t, k, fields⟩ "apa").map (fun s => s ++ " " ++ (p ++ "."))) ∧
    (∀ (e : Entry) (s : String),
      formatEntryPythonE e s = .error () ↔
        (s = "mla" ∧ dictGetD e.fields "author" "" ≠ "" ∧
          authorsList (dictGetD e.fields "author" "") = [])) := by
  have key : ∀ (rest : List String) (x y : String),
      ∃ pre post, pyJoin " " ((x ++ "n.d." ++ y) :: rest) = pre ++ "n.d." ++ post := by
    intro rest x y
    obtain ⟨tail, htail⟩ := pyJoin_cons_tail (x ++ "n.d." ++ y) rest
    exact ⟨x, y ++ tail, by rw [htail]; simp [String.append_assoc]⟩
  refine ⟨?_, ?_, ?_, ?_, ?_, ?_, ?_⟩
  · intro t k fields hy res hres
    obtain ⟨au, hau⟩ := formatAuthorsE_apa_ok (dictGetD fields "author" "")
    have hyy : dictGetD fields "year" "n.d." = "n.d." := by simp [dictGetD, hy]
    simp only [formatEntryPythonE, hau, Bind.bind, Except.bind, hyy] at hres
    rw [if_pos (Or.inl trivial)] at hres
    simp only [pure, Except.pure, Except.ok.injEq] at hres
    subst hres
    simp only [formatApa]
    by_cases hau0 : au ≠ ""
    · rw [if_pos hau0]
      split <;>
      · simp only [List.singleton_append, List.cons_append]
        exact key _ (au ++ " (") ")."
    · rw [if_neg hau0]
      split <;>
      · simp only [List.singleton_append, List.cons_append]
        exact key _ "(" ")."
  · intro k y fields hy hj
    refine ⟨?_, ?_, ?_⟩
    · rw [formatEntryPythonE_vancouver ⟨"article", k, fields⟩]
      cases hfa : formatAuthorsE (dictGetD fields "author" "") "vancouver" with
      | error u => rfl
      | ok au =>
        simp only [Except.map]
        exact congrArg Except.ok
          (formatVancouver_year_inv au (dictGetD fields "title" "") _ y fields hy hj)
    · rw [formatEntryPythonE_ama ⟨"article", k, fields⟩]
      cases hfa : formatAuthorsE (dictGetD fields "author" "") "ama" with
      | error u => rfl
      | ok au =>
        simp only [Except.map]
        exact congrArg Except.ok
          (formatAma_year_inv au (dictGetD fields "title" "") _ y fields hy hj)
    · rw [formatEntryPythonE_acs ⟨"article", k, fields⟩]
      cases hfa : formatAuthorsE (dictGetD fields "author" "") "acs" with
      | error u => rfl
      | ok au =>
        simp only [Except.map]
        exact congrArg Except.ok
          (formatAcs_year_inv au (dictGetD fields "title" "") _ y fields hy hj)
  · intro t k y fields hna hp
    rw [formatEntryPythonE_mla ⟨t, k, fields⟩]
    cases hfa : formatAuthorsE (dictGetD fields "author" "") "mla" with
    | error u => rfl
    | ok au =>
      simp only [Except.map]
      exact congrArg Except.ok
        (formatMla_year_inv t au (dictGetD fields "title" "") _ y fields hna hp)
  · intro s
    rfl
  · intro t au y ti fields hau
    exact ⟨formatApa_author_head t au y ti fields hau,
      formatMla_author_head t au y ti fields hau,
      formatChicago_author_head t au y ti fields hau,
      formatIeee_author_head t au y ti fields hau,
      formatVancouver_author_head t au y ti fields hau,
      formatAma_author_head t au y ti fields hau,
      formatAcs_author_head t au y ti fields hau,
      formatNature_author_head t au y ti fields hau⟩
  · intro t k fields p ht hpub
    obtain ⟨au, hau⟩ := formatAuthorsE_apa_ok (dictGetD fields "author" "")
    have hau2 : dictGetD (fields ++ [("publisher", p)]) "author" ""
        = dictGetD fields "author" "" := by
      simp [dictGetD, dictGet_append_ne fields "author" "publisher" p (by decide)]
    have hy2 : dictGetD (fields ++ [("publisher", p)]) "year" "n.d."
        = dictGetD fields "year" "n.d." := by
      simp [dictGetD, dictGet_append_ne fields "year" "publisher" p (by decide)]
    have hti2 : dictGetD (fields ++ [("publisher", p)]) "title" ""
        = dictGetD fields "title" "" := by
      simp [dictGetD, dictGet_append_ne fields "title" "publisher" p (by decide)]
    simp only [formatEntryPythonE, hau2, hau, Bind.bind, Except.bind, hy2, hti2]
    rw [if_pos (Or.inl trivial), if_pos (Or.inl trivial)]
    simp only [pure, Except.pure, Except.map]
    rw [formatApa_append_pub t au _ _ fields p ht hpub]
  · intro e s
    cases hfa : formatAuthorsE (dictGetD e.fields "author" "") s with
    | error u =>
      cases u
      apply iff_of_true
      · simp only [formatEntryPythonE, hfa, Bind.bind, Except.bind]
      · exact (formatAuthorsE_error_iff _ _).mp hfa
    | ok au =>
      obtain ⟨res, hres⟩ := formatEntryPythonE_ok_of_authors e s au hfa
      apply iff_of_false
      · rw [hres]
        intro h
        cases h
      · intro hC
        have herr := (formatAuthorsE_error_iff (dictGetD e.fields "author" "") s).mpr hC
        rw [hfa] at herr
        cases herr

/-- C2 counterexample: an entry with no fields at all formats under APA to
`"(n.d.). ."` — the substitute string `"n.d."` is inserted for the absent
year (and the absent title leaves a bare period); and MLA with the truthy
author field `","` raises instead of returning. -/
theorem claim_C2_counterexample :
    formatEntryPythonE entryEmptyFields "apa" = .ok "(n.d.). ." ∧
    formatEntryPythonE entryCommaAuthor "mla" = .error () :=
  ⟨rfl, rfl⟩

/-- Witness for C2: the placeholder clause at an empty entry, the vancouver
year omission at a journal-bearing entry (the year argument `"IGNORED"` is
arbitrary), the mla year omission at a publisher-less book, and the author
prefix decomposition at a concrete author. -/
theorem claim_C2_witness :
    (∃ pre post, ("(n.d.). ." : String) = pre ++ "n.d." ++ post) ∧
    formatEntryPythonE ⟨"article", "k", [("journal", "J")]⟩ "vancouver"
      = (formatAuthorsE (dictGetD [("journal", "J")] "author" "") "vancouver").map
          (fun au => formatVancouver "article" au "IGNORED"
            (dictGetD [("journal", "J")] "title" "") [("journal", "J")]) ∧
    formatEntryPythonE ⟨"book", "k", ([] : List (String × String))⟩ "mla"
      = (formatAuthorsE (dictGetD ([] : List (String × String)) "author" "") "mla").map
          (fun au => formatMla "book" au "IGNORED"
            (dictGetD ([] : List (String × String)) "title" "") []) ∧
    formatMla "book" "Ann" "2001" "T" [] = "Ann" ++ ". " ++ formatMla "book" "" "2001" "T" [] :=
  ⟨claim_C2_missing_fields.1 "book" "k" [] rfl "(n.d.). ." rfl,
   (claim_C2_missing_fields.2.1 "k" "IGNORED" [("journal", "J")] rfl rfl).1,
   claim_C2_missing_fields.2.2.1 "book" "k" "IGNORED" [] (by decide) rfl,
   (claim_C2_missing_fields.2.2.2.2.1 "book" "Ann" "2001" "T" [] (by decide)).2.1⟩

/-! ## Claim C10: formatted references are non-empty; the stage never drops -/

theorem str_ne_empty_of_length (s : String) (h : 0 < s.length) : s ≠ "" := by
  intro he
  rw [he] at h
  simp at h

theorem title_part_ne_empty (ti suffix : String) (hs : 0 < suffix.length) :
    ti ++ suffix ≠ "" := by
  apply str_ne_empty_of_length
  rw [String.length_append]
  omega

theorem formatApa_ne_empty (t au y ti : String) (fields : List (String × String)) :
    formatApa t au y ti fields ≠ "" := by
  simp only [formatApa]
  apply pyJoin_pos_of_mem _ (ti ++ ".") _ (title_part_ne_empty ti "." (by decide))
  split <;> simp [List.mem_append]

theorem formatMla_ne_empty (t au y ti : String) (fields : List (String × String)) :
    formatMla t au y ti fields ≠ "" := by
  simp only [formatMla]
  apply pyJoin_pos_of_mem _ ("\"" ++ ti ++ ".\"") _ (by
    apply str_ne_empty_of_length
    rw [String.length_append, String.length_append]
    have h1 : ("\"" : String).length = 1 := rfl
    have h2 : (".\"" : String).length = 2 := rfl
    omega)
  split <;> simp [List.mem_append]

theorem formatChicago_ne_empty (t au y ti : String) (fields : List (String × String)) :
    formatChicago t au y ti fields ≠ "" := by
  simp only [formatChicago]
  apply pyJoin_pos_of_mem _ (y ++ ". \"" ++ ti ++ ".\"") _ (by
    apply str_ne_empty_of_length
    rw [String.length_append, String.length_append, String.length_append]
    have h1 : (". \"" : String).length = 3 := rfl
    have h2 : (".\"" : String).length = 2 := rfl
    omega)
  split <;> simp [List.mem_append]

theorem formatIeee_ne_empty (t au y ti : String) (fields : List (String × String)) :
    formatIeee t au y ti fields ≠ "" := by
  simp only [formatIeee]
  apply pyJoin_pos_of_mem _ ("\"" ++ ti ++ ",\"") _ (by
    apply str_ne_empty_of_length
    rw [String.length_append, String.length_append]
    have h1 : ("\"" : String).length = 1 := rfl
    have h2 : (",\"" : String).length = 2 := rfl
    omega)
  split <;> simp [List.mem_append]

theorem formatVancouver_ne_empty (t au y ti : String) (fields : List (String × String)) :
    formatVancouver t au y ti fields ≠ "" := by
  simp only [formatVancouver]
  apply pyJoin_pos_of_mem _ (ti ++ ".") _ (title_part_ne_empty ti "." (by decide))
  split <;> simp [List.mem_append]

theorem formatAma_ne_empty (t au y ti : String) (fields : List (String × String)) :
    formatAma t au y ti fields ≠ "" := by
  simp only [formatAma]
  apply pyJoin_pos_of_mem _ (ti ++ ".") _ (title_part_ne_empty ti "." (by decide))
  split <;> simp [List.mem_append]

theorem formatAcs_ne_empty (t au y ti : String) (fields : List (String × String)) :
    formatAcs t au y ti fields ≠ "" := by
  simp only [formatAcs]
  apply pyJoin_pos_of_mem _ (ti ++ ".") _ (title_part_ne_empty ti "." (by decide))
  split <;> simp [List.mem_append]

theorem formatNature_ne_empty (t au y ti : String) (fields : List (String × String)) :
    formatNature t au y ti fields ≠ "" := by
  simp only [formatNature]
  apply pyJoin_pos_of_mem _ (ti ++ ".") _ (title_part_ne_empty ti "." (by decide))
  split <;> simp [List.mem_append]

set_option maxHeartbeats 1000000 in
/-- Whenever `format_entry_python` returns, its result is non-empty. -/
theorem formatEntryPythonE_ok_ne_empty (e : Entry) (s res : String)
    (h : formatEntryPythonE e s = .ok res) : res ≠ "" := by
  cases hfa : formatAuthorsE (dictGetD e.fields "author" "") s with
  | error u =>
    simp only [formatEntryPythonE, hfa, Bind.bind, Except.bind] at h
    cases h
  | ok au =>
    simp only [formatEntryPythonE, hfa, Bind.bind, Except.bind] at h
    repeat' split at h
    all_goals simp only [pure, Except.pure, Except.ok.injEq] at h
    all_goals subst h
    all_goals
      first
        | exact formatApa_ne_empty _ _ _ _ _
        | exact formatMla_ne_empty _ _ _ _ _
        | exact formatChicago_ne_empty _ _ _ _ _
        | exact formatIeee_ne_empty _ _ _ _ _
        | exact formatVancouver_ne_empty _ _ _ _ _
        | exact formatAma_ne_empty _ _ _ _ _
        | exact formatAcs_ne_empty _ _ _ _ _
        | exact formatNature_ne_empty _ _ _ _ _

theorem formatWithPython_go (style : String) : ∀ (entries : List Entry) (acc : List String),
    List.foldlM (formatStep style) acc entries
      = (specOnePerEntry style entries).map (fun l => acc ++ l)
  | [], acc => by
    simp [specOnePerEntry, Except.map, pure, Except.pure]
  | e :: rest, acc => by
    rw [List.foldlM_cons]
    cases hfe : formatEntryPythonE e style with
    | error u =>
      have hstep : formatStep style acc e = .error u := by
        simp [formatStep, hfe, Bind.bind, Except.bind]
      rw [hstep]
      simp [specOnePerEntry, hfe, Bind.bind, Except.bind, Except.map]
    | ok s =>
      have hs : s ≠ "" := formatEntryPythonE_ok_ne_empty e style s hfe
      have hstep : formatStep style acc e = .ok (acc ++ [s]) := by
        simp [formatStep, hfe, Bind.bind, Except.bind, pure, Except.pure, if_pos hs]
      rw [hstep]
      have hbind : (Except.ok (acc ++ [s]) >>= fun acc2 =>
          List.foldlM (formatStep style) acc2 rest)
          = List.foldlM (formatStep style) (acc ++ [s]) rest := rfl
      rw [hbind, formatWithPython_go style rest (acc ++ [s])]
      simp only [specOnePerEntry, hfe, Bind.bind, Except.bind]
      cases hrest : specOnePerEntry style rest with
      | error u => simp [Except.map]
      | ok l => simp [Except.map, pure, Except.pure]

/-- C10 (amended): whenever `format_entry_python` returns (all cases except
the MLA zero-author raise, cf. C2), the result is a non-empty string, so the
truthiness filter in `format_with_python` never drops an entry: the stage
equals a plain monadic map, one FormattedReference per Entry. -/
theorem claim_C10_one_ref_per_entry :
    (∀ (e : Entry) (s res : String), formatEntryPythonE e s = .ok res → res ≠ "") ∧
    (∀ (style : String) (entries : List Entry),
      formatWithPython style entries = specOnePerEntry style entries) := by
  refine ⟨fun e s res h => formatEntryPythonE_ok_ne_empty e s res h, ?_⟩
  intro style entries
  simp only [formatWithPython]
  rw [formatWithPython_go]
  cases hm : specOnePerEntry style entries with
  | error u => simp [Except.map]
  | ok l => simp [Except.map]

/-- C10 counterexample: on the MLA zero-author entry, `format_entry_python`
raises rather than returning a string, and `format_with_python` propagates the
exception instead of producing one formatted reference for the entry. -/
theorem claim_C10_counterexample :
    formatWithPython "mla" [entryCommaAuthor] = .error () ∧
    (∀ res : String, formatEntryPythonE entryCommaAuthor "mla" ≠ .ok res) := by
  refine ⟨rfl, ?_⟩
  intro res h
  have herr : formatEntryPythonE entryCommaAuthor "mla" = .error () := rfl
  rw [herr] at h
  cases h

/-- Witness for C10 at a concrete input. -/
theorem claim_C10_witness : ("Smith, J. (2020). A Study." : String) ≠ "" :=
  claim_C10_one_ref_per_entry.1 entryJane "apa" "Smith, J. (2020). A Study." rfl

/-! ## Claim C1: field-name schemas of the parsers -/

set_option maxHeartbeats 2000000 in
theorem risLineUpdate_keys (st : String × List (String × String)) (line : String) :
    ∀ a, a ∈ dictKeys (risLineUpdate st line).2 → a ∈ dictKeys st.2 ∨ a ∈ schema8 := by
  intro a ha
  simp only [risLineUpdate] at ha
  repeat' split at ha
  all_goals
    first
      | exact Or.inl ha
      | (rcases dictKeys_dictSet_mem _ _ _ _ ha with h | h
         · exact Or.inl h
         · exact Or.inr (by rw [h]; decide))

theorem risFold_keys : ∀ (lines : List String) (st : String × List (String × String)),
    (∀ a ∈ dictKeys st.2, a ∈ schema8) →
    ∀ a ∈ dictKeys ((lines.foldl risLineUpdate st).2), a ∈ schema8
  | [], st, hst => hst
  | line :: rest, st, hst => by
    rw [List.foldl_cons]
    refine risFold_keys rest (risLineUpdate st line) ?_
    intro a ha
    rcases risLineUpdate_keys st line a ha with h | h
    · exact hst a h
    · exact h

theorem parseRis_keys (c : Except Unit String) (e : Entry) (he : e ∈ parseRis c) :
    ∀ a ∈ dictKeys e.fields, a ∈ schema8 := by
  cases c with
  | error u => simp [parseRis] at he
  | ok content =>
    simp only [parseRis] at he
    suffices h : ∀ (records : List String) (acc : List Entry),
        (∀ x ∈ acc, ∀ a ∈ dictKeys x.fields, a ∈ schema8) →
        ∀ x ∈ records.foldl (fun acc record =>
          if pyTrim record = "" then acc
          else
            let st := (pySplitChar '\n' record).foldl risLineUpdate ("article", [])
            if st.2 ≠ [] then
              acc ++ [{ type := st.1, key := pyTake (dictGetD st.2 "title" "unknown") 20,
                        fields := st.2 }]
            else acc) acc,
        ∀ a ∈ dictKeys x.fields, a ∈ schema8 by
      exact h _ [] (by simp) e he
    intro records
    induction records with
    | nil => intro acc hacc x hx; exact hacc x hx
    | cons r rs ih =>
      intro acc hacc x hx
      rw [List.foldl_cons] at hx
      refine ih _ ?_ x hx
      intro x' hx'
      by_cases hr : pyTrim r = ""
      · rw [if_pos hr] at hx'
        exact hacc x' hx'
      · simp only [if_neg hr] at hx'
        split at hx'
        · rcases List.mem_append.mp hx' with h | h
          · exact hacc x' h
          · simp only [List.mem_singleton] at h
            subst h
            exact risFold_keys (pySplitChar '\n' r) ("article", []) (by simp [dictKeys])
        · exact hacc x' hx'

set_option maxHeartbeats 2000000 in
theorem endnoteLineUpdate_keys (st st' : String × List (String × String)) (line : String)
    (h : endnoteLineUpdate st line = .ok st') :
    ∀ a, a ∈ dictKeys st'.2 → a ∈ dictKeys st.2 ∨ a ∈ schema8 := by
  intro a ha
  simp only [endnoteLineUpdate] at h
  repeat' split at h
  all_goals try cases h
  all_goals
    first
      | exact Or.inl ha
      | (rcases dictKeys_dictSet_mem _ _ _ _ ha with h2 | h2
         · exact Or.inl h2
         · exact Or.inr (by rw [h2]; decide))

theorem endnoteFold_keys : ∀ (lines : List String) (st st' : String × List (String × String)),
    lines.foldlM endnoteLineUpdate st = .ok st' →
    (∀ a ∈ dictKeys st.2, a ∈ schema8) →
    ∀ a ∈ dictKeys st'.2, a ∈ schema8
  | [], st, st', h, hst => by
    simp only [List.foldlM_nil] at h
    cases h
    exact hst
  | line :: rest, st, st', h, hst => by
    rw [List.foldlM_cons] at h
    obtain ⟨st1, h1, h2⟩ := except_bind_ok h
    refine endnoteFold_keys rest st1 st' h2 ?_
    intro a ha
    rcases endnoteLineUpdate_keys st st1 line h1 a ha with h3 | h3
    · exact hst a h3
    · exact h3

theorem parseEndnote_keys (c : Except Unit String) (e : Entry) (he : e ∈ parseEndnote c) :
    ∀ a ∈ dictKeys e.fields, a ∈ schema8 := by
  cases c with
  | error u => simp [parseEndnote, Bind.bind, Except.bind] at he
  | ok content =>
    simp only [parseEndnote, Bind.bind, Except.bind] at he
    cases hbody : parseEndnoteBody content with
    | error u => rw [hbody] at he; simp at he
    | ok entries =>
      rw [hbody] at he
      have hbody2 : parseEndnoteBody content = .ok entries := hbody
      simp only [parseEndnoteBody] at hbody2
      suffices h : ∀ (records : List String) (acc : List Entry) (out : List Entry),
          records.foldlM (fun acc record =>
            if pyTrim record = "" then pure acc
            else do
              let st ← (pySplitChar '\n' record).foldlM endnoteLineUpdate ("article", [])
              pure (if st.2 ≠ [] then
                acc ++ [{ type := st.1, key := pyTake (dictGetD st.2 "title" "unknown") 20,
                          fields := st.2 : Entry }]
              else acc)) acc = .ok out →
          (∀ x ∈ acc, ∀ a ∈ dictKeys x.fields, a ∈ schema8) →
          ∀ x ∈ out, ∀ a ∈ dictKeys x.fields, a ∈ schema8 by
        exact h _ [] entries hbody2 (by simp) e he
      intro records
      induction records with
      | nil =>
        intro acc out hout hacc
        simp only [List.foldlM_nil, pure, Except.pure, Except.ok.injEq] at hout
        subst hout
        exact hacc
      | cons r rs ih =>
        intro acc out hout hacc
        rw [List.foldlM_cons] at hout
        obtain ⟨acc1, h1, h2⟩ := except_bind_ok hout
        refine ih acc1 out h2 ?_
        intro x hx
        by_cases hr : pyTrim r = ""
        · rw [if_pos hr] at h1
          cases h1
          exact hacc x hx
        · rw [if_neg hr] at h1
          obtain ⟨st, hst, h3⟩ := except_bind_ok h1
          simp only [pure, Except.pure, Except.ok.injEq] at h3
          subst h3
          split at hx
          · rcases List.mem_append.mp hx with h4 | h4
            · exact hacc x h4
            · simp only [List.mem_singleton] at h4
              subst h4
              exact endnoteFold_keys (pySplitChar '\n' r) ("article", []) st hst
                (by simp [dictKeys])
          · exact hacc x hx

theorem jsonAuthorBlock_keys (item : Json) (hasAuthor : Bool)
    (f1 : List (String × String))
    (h : jsonAuthorFields item hasAuthor = .ok f1) :
    ∀ a ∈ dictKeys f1, a = "author" := by
  intro a ha
  cases hasAuthor with
  | false =>
    simp only [jsonAuthorFields, if_neg (Bool.false_ne_true), pure, Except.pure,
      Except.ok.injEq] at h
    subst h
    simp [dictKeys] at ha
  | true =>
    rw [jsonAuthorFields, if_pos rfl] at h
    obtain ⟨av, h1, h2⟩ := except_bind_ok h
    obtain ⟨elems, h3, h4⟩ := except_bind_ok h2
    obtain ⟨joined, h5, h6⟩ := except_bind_ok h4
    simp only [pure, Except.pure, Except.ok.injEq] at h6
    subst h6
    rcases dictKeys_dictSet_mem _ _ _ _ ha with h7 | h7
    · simp [dictKeys] at h7
    · exact h7

theorem jsonFieldFold_keys (item : Json) :
    ∀ (l : List (String × String)) (fs fs' : List (String × String)),
    l.foldlM (fun fs kv => do
        let present ← pyContainsJson item kv.1
        if present then do
          let v ← pySubscript item kv.1
          pure (dictSet fs kv.2 (pyStr v))
        else pure fs) fs = .ok fs' →
    ∀ a ∈ dictKeys fs', a ∈ dictKeys fs ∨ a ∈ l.map Prod.snd
  | [], fs, fs', h => by
    simp only [List.foldlM_nil, pure, Except.pure, Except.ok.injEq] at h
    subst h
    exact fun a ha => Or.inl ha
  | kv :: rest, fs, fs', h => by
    intro a ha
    rw [List.foldlM_cons] at h
    obtain ⟨fs1, h1, h2⟩ := except_bind_ok h
    obtain ⟨present, h3, h4⟩ := except_bind_ok h1
    have hfs1 : ∀ b ∈ dictKeys fs1, b ∈ dictKeys fs ∨ b = kv.2 := by
      intro b hb
      cases present with
      | false =>
        simp only [if_neg (Bool.false_ne_true), pure, Except.pure, Except.ok.injEq] at h4
        subst h4
        exact Or.inl hb
      | true =>
        rw [if_pos rfl] at h4
        obtain ⟨v, h5, h6⟩ := except_bind_ok h4
        simp only [pure, Except.pure, Except.ok.injEq] at h6
        subst h6
        exact dictKeys_dictSet_mem _ _ _ _ hb
    rcases jsonFieldFold_keys item rest fs1 fs' h2 a ha with h5 | h5
    · rcases hfs1 a h5 with h6 | h6
      · exact Or.inl h6
      · exact Or.inr (by simp [h6])
    · exact Or.inr (by simp [h5])

theorem jsonIssuedBlock_keys (item : Json) (hasIssued : Bool)
    (fields2 f3 : List (String × String))
    (h : jsonIssuedFields item hasIssued fields2 = .ok f3) :
    ∀ a ∈ dictKeys f3, a ∈ dictKeys fields2 ∨ a = "year" := by
  intro a ha
  cases hasIssued with
  | false =>
    simp only [jsonIssuedFields, if_neg (Bool.false_ne_true), pure, Except.pure,
      Except.ok.injEq] at h
    subst h
    exact Or.inl ha
  | true =>
    rw [jsonIssuedFields, if_pos rfl] at h
    obtain ⟨iv, h1, h2⟩ := except_bind_ok h
    repeat' split at h2
    all_goals try
      (obtain ⟨dp, h3, h4⟩ := except_bind_ok h2
       obtain ⟨fst, h5, h6⟩ := except_bind_ok h4
       obtain ⟨y, h7, h8⟩ := except_bind_ok h6
       simp only [pure, Except.pure, Except.ok.injEq] at h8
       subst h8
       exact dictKeys_dictSet_mem _ _ _ _ ha)
    all_goals
      simp only [pure, Except.pure, Except.ok.injEq] at h2
    all_goals subst h2
    all_goals first
      | exact Or.inl ha
      | exact dictKeys_dictSet_mem _ _ _ _ ha

theorem processJsonItem_keys (item : Json) (e : Entry)
    (h : processJsonItem item = .ok e) :
    ∀ a ∈ dictKeys e.fields, a ∈ schema8 := by
  intro a ha
  simp only [processJsonItem] at h
  obtain ⟨hasAuthor, h1, h2⟩ := except_bind_ok h
  obtain ⟨fields1, h3, h4⟩ := except_bind_ok h2
  obtain ⟨fields2, h5, h6⟩ := except_bind_ok h4
  obtain ⟨hasIssued, h7, h8⟩ := except_bind_ok h6
  obtain ⟨fields3, h9, h10⟩ := except_bind_ok h8
  obtain ⟨tj, h11, h12⟩ := except_bind_ok h10
  obtain ⟨isJournal, h13, h14⟩ := except_bind_ok h12
  obtain ⟨kj, h15, h16⟩ := except_bind_ok h14
  simp only [pure, Except.pure, Except.ok.injEq] at h16
  subst h16
  simp only [dictKeys] at ha
  have ha3 : a ∈ dictKeys fields3 := ha
  rcases jsonIssuedBlock_keys item hasIssued fields2 fields3 h9 a ha3 with h17 | h17
  · rcases jsonFieldFold_keys item jsonFieldMap fields1 fields2 (by exact h5) a h17 with h18 | h18
    · have := jsonAuthorBlock_keys item hasAuthor fields1 h3 a h18
      rw [this]
      decide
    · simp only [jsonFieldMap] at h18
      simp only [List.map_cons, List.map_nil, List.mem_cons, List.not_mem_nil, or_false] at h18
      rcases h18 with h | h | h | h | h | h <;> (rw [h]; decide)
  · rw [h17]
    decide

theorem parseJson_keys (c : Except Unit Json) (e : Entry) (he : e ∈ parseJson c) :
    ∀ a ∈ dictKeys e.fields, a ∈ schema8 := by
  have hmain : ∀ (its : List Json) (acc : List Entry) (out : List Entry),
      its.foldlM (fun acc it => do
        let e ← processJsonItem it
        pure (acc ++ [e])) acc = .ok out →
      (∀ x ∈ acc, ∀ a ∈ dictKeys x.fields, a ∈ schema8) →
      ∀ x ∈ out, ∀ a ∈ dictKeys x.fields, a ∈ schema8 := by
    intro its
    induction its with
    | nil =>
      intro acc out hout hacc
      simp only [List.foldlM_nil, pure, Except.pure, Except.ok.injEq] at hout
      subst hout
      exact hacc
    | cons it rest ih =>
      intro acc out hout hacc
      rw [List.foldlM_cons] at hout
      obtain ⟨acc1, hstep, hrest⟩ := except_bind_ok hout
      obtain ⟨e1, he1, hacc1⟩ := except_bind_ok hstep
      simp only [pure, Except.pure, Except.ok.injEq] at hacc1
      subst hacc1
      refine ih _ out hrest ?_
      intro x hx
      rcases List.mem_append.mp hx with hxa | hxa
      · exact hacc x hxa
      · simp only [List.mem_singleton] at hxa
        subst hxa
        exact processJsonItem_keys it x he1
  cases c with
  | error u => simp [parseJson, Bind.bind, Except.bind] at he
  | ok data =>
    simp only [parseJson, Bind.bind, Except.bind] at he
    cases hbody : parseJsonBody data with
    | error u => rw [hbody] at he; simp at he
    | ok entries =>
      rw [hbody] at he
      simp only [parseJsonBody] at hbody
      split at hbody
      · exact hmain _ [] entries hbody (by simp) e he
      · obtain ⟨items, h1, h2⟩ := except_bind_ok hbody
        exact hmain items [] entries h2 (by simp) e he

/-! ## Claim C1: the eight-field schema of the parsers -/

/-- C1 (amended): three of the four parsers — RIS, EndNote and CSL-JSON —
only ever emit entries whose field keys lie in the eight-field schema
(author, title, year, journal, volume, number, pages, publisher); but
`parse_bibtex` copies every `key = \x7bvalue\x7d` pair of the input into the
entry verbatim (key lowercased), so a field outside the schema such as
`month` is preserved, not dropped. -/
theorem claim_C1_parser_schema (r s : Except Unit String) (j : Except Unit Json)
    (e1 e2 e3 : Entry) (h1 : e1 ∈ parseRis r) (h2 : e2 ∈ parseEndnote s)
    (h3 : e3 ∈ parseJson j) :
    (∀ a ∈ dictKeys e1.fields, a ∈ schema8) ∧
    (∀ a ∈ dictKeys e2.fields, a ∈ schema8) ∧
    (∀ a ∈ dictKeys e3.fields, a ∈ schema8) ∧
    parseBibtex (.ok bibtexMonthInput) = [⟨"article", "k", [("month", "jan")]⟩] :=
  ⟨parseRis_keys r e1 h1, parseEndnote_keys s e2 h2, parseJson_keys j e3 h3, rfl⟩

/-- C1 counterexample: on `@article\x7bk, month=\x7bjan\x7d\x7d` the BibTeX
parser emits the fields dict `[("month", "jan")]`, and `month` is not one of
the eight schema keys, so the field was preserved rather than dropped. -/
theorem claim_C1_counterexample :
    parseBibtex (.ok bibtexMonthInput) = [⟨"article", "k", [("month", "jan")]⟩] ∧
    ("month" : String) ∉ schema8 :=
  ⟨rfl, by decide⟩

/-- C1 witness: the schema property instantiated on one concrete record per
parser. -/
theorem claim_C1_witness :
    (∀ a ∈ dictKeys (Entry.fields
        ⟨"jour", "A Study", [("author", "Jane Smith"), ("title", "A Study")]⟩),
      a ∈ schema8) ∧
    (∀ a ∈ dictKeys (Entry.fields
        ⟨"journal article", "A Study",
          [("author", "Jane Smith"), ("title", "A Study")]⟩),
      a ∈ schema8) ∧
    (∀ a ∈ dictKeys (Entry.fields ⟨"article", "Solo", [("title", "Solo")]⟩),
      a ∈ schema8) ∧
    parseBibtex (.ok bibtexMonthInput) = [⟨"article", "k", [("month", "jan")]⟩] :=
  claim_C1_parser_schema (.ok risSampleInput) (.ok endnoteSampleInput)
    (.ok jsonSampleInput) _ _ _ (by decide) (by decide) (by decide)

/-! ## Claim C4: hanging-indent wrapping -/

/-- C4 (amended): when hanging indent is enabled, every reference is wrapped
with first-line indent 0 and a continuation indent that is *uniform* across
entries — `len(marker(N)) + 1` computed once from the marker of the LAST
index `N = len(formatted_refs)` — applied whenever the entry's own marker is
non-empty; with hanging indent off both indents are 0. -/
theorem claim_C4_hanging_indent (numberingStyle : String) (maxChars : Int)
    (nRefs i : Nat) (ref : String) :
    refWrappedLines numberingStyle true maxChars nRefs i ref
      = wrapText (refFullText numberingStyle i ref) maxChars 0
          (if getNumberingMarker numberingStyle i ≠ "" then
            ((getNumberingMarker numberingStyle nRefs).length : Int) + 1 else 0) ∧
    refWrappedLines numberingStyle false maxChars nRefs i ref
      = wrapText (refFullText numberingStyle i ref) maxChars 0 0 := by
  constructor
  · simp only [refWrappedLines, true_and]
  · simp only [refWrappedLines, false_and, if_neg (fun h : False => h)]
    rfl

/-- C4 counterexample: with numeric numbering and ten references, the first
reference is wrapped with continuation indent `len("[10]") + 1 = 5`, not with
its own marker's `len("[1]") + 1 = 4` as the claim states — the produced
lines differ. -/
theorem claim_C4_counterexample :
    (addReferencesWrapped "numeric" true 12 refsTen).headD []
        = ["[1] aaaaaaa", "abcd", "efg"] ∧
    wrapText (refFullText "numeric" 1 "aaaaaaa abcd efg") 12 0
        (((getNumberingMarker "numeric" 1).length : Int) + 1)
        = ["[1] aaaaaaa", "abcd efg"] ∧
    (["[1] aaaaaaa", "abcd", "efg"] : List String) ≠ ["[1] aaaaaaa", "abcd efg"] :=
  ⟨rfl, rfl, by decide⟩
